import Mathlib

/-!
Verification development for the rappit HTTP-client core: a shallow embedding
of `src/app/history_manager.py` (the bounded request-history cache) and of
`src/app/formatter.py` (content-type detection, JSON/XML/HTML formatting and
minification), together with proofs of the frozen specification claims.
-/

namespace Rappit

/-! ## History manager (src/app/history_manager.py)

The Python `HistoryManager` keeps two pieces of state:
`self.history_data`, a Python `dict` mapping the request key to an entry
(Python dicts preserve insertion order; assigning to an existing key keeps
its position), modelled here as an ordered association list, and
`self.history_list`, a `Gtk.ListBox` whose rows are inserted at index 0,
modelled as the list of request keys in row order (index 0 = top row).
Each live entry owns exactly one row, so a row is identified by its key.
A response is the dict produced by the request handler; the fields read by
the history manager are `status_code` and `response_time`
(via `response.get(..., 0)`), plus the opaque rest which we model as `body`.
-/

/-- Model of a response dict: the fields the history manager reads, plus an
opaque payload distinguishing responses. -/
structure Response where
  status_code : Int := 0
  response_time : Int := 0
  payload : String := ""
deriving DecidableEq

/-- Model of one `history_data` value: the dict built in
`_create_history_item` (lines 129-138), minus the GTK widget references;
`subtitle` models the markup stored on the subtitle label. -/
structure HistoryEntry where
  method : String
  url : String
  response : Response
  body : String
  headers : List (String × String)
  subtitle : String
deriving DecidableEq

/-- Status emoji chosen from the status-code range
(lines 90-96 and 156-162 of `history_manager.py`). -/
def status_emoji (status_code : Int) : String :=
  if 200 ≤ status_code ∧ status_code < 300 then "✅"
  else if 300 ≤ status_code ∧ status_code < 400 then "⚠️"
  else "❌"

/-- Subtitle markup (lines 115 and 166 of `history_manager.py`). -/
def subtitle_markup (r : Response) : String :=
  "<small>" ++ status_emoji r.status_code ++ " Status: " ++ toString r.status_code
    ++ " | Time: " ++ toString r.response_time ++ "ms</small>"

/-- State of a `HistoryManager`: the insertion-ordered data dict and the
ListBox row order (head = row 0, the most recently inserted/updated row). -/
structure HistoryState where
  history_data : List (String × HistoryEntry)
  history_list : List String
deriving DecidableEq

/-- The empty history (the `__init__` state). -/
def emptyHistory : HistoryState := ⟨[], []⟩

/-- Maximum number of history items (`self.max_items = 20`). -/
def max_items : Nat := 20

/-- Lookup in the ordered dict (`request_key in self.history_data` /
`self.history_data[request_key]`). -/
def lookupData (d : List (String × HistoryEntry)) (k : String) : Option HistoryEntry :=
  match d with
  | [] => none
  | (k', e) :: rest => if k' = k then some e else lookupData rest k

/-- Replacing the value stored at a key, keeping its dict position
(`data['response'] = response` mutates in place). -/
def updateData (d : List (String × HistoryEntry)) (k : String)
    (f : HistoryEntry → HistoryEntry) : List (String × HistoryEntry) :=
  match d with
  | [] => []
  | (k', e) :: rest => if k' = k then (k', f e) :: rest else (k', e) :: updateData rest k f

/-- Deleting a key from the dict (`del self.history_data[request_key]`). -/
def removeData (d : List (String × HistoryEntry)) (k : String) :
    List (String × HistoryEntry) :=
  match d with
  | [] => []
  | (k', e) :: rest => if k' = k then rest else (k', e) :: removeData rest k

/-- The request fingerprint: `request_key = f"{method}_{url}"` (line 45). -/
def request_key (method url : String) : String := method ++ "_" ++ url

/-- The entry stored by `_create_history_item` (lines 129-138). -/
def mkEntry (method url : String) (response : Response) (body : String)
    (headers : List (String × String)) : HistoryEntry :=
  { method := method, url := url, response := response, body := body,
    headers := headers, subtitle := subtitle_markup response }

/-- Model of `remove_history_item` (lines 184-192): remove the row from the
ListBox and delete the key from the data dict; no-op when absent. -/
def remove_history_item (s : HistoryState) (k : String) : HistoryState :=
  if (lookupData s.history_data k).isSome then
    { history_data := removeData s.history_data k,
      history_list := s.history_list.erase k }
  else s

/-- Model of `_remove_oldest_item` (lines 173-182): remove the entry whose
key comes first in the data dict (`list(self.history_data.keys())[0]`). -/
def remove_oldest_item (s : HistoryState) : HistoryState :=
  match s.history_data with
  | [] => s
  | (k, _) :: _ => remove_history_item s k

/-- Model of `_create_history_item` (lines 84-142): insert the new row at
ListBox index 0, append the entry to the data dict, then evict the oldest
entry if the dict now exceeds `max_items`. -/
def create_history_item (s : HistoryState) (k method url : String)
    (response : Response) (body : String) (headers : List (String × String)) :
    HistoryState :=
  let s' : HistoryState :=
    { history_data := s.history_data ++ [(k, mkEntry method url response body headers)],
      history_list := k :: s.history_list }
  if s'.history_data.length > max_items then remove_oldest_item s' else s'

/-- Model of `_update_history_item` (lines 144-171): replace the stored
response, refresh the subtitle markup, and move the row to ListBox index 0.
The key keeps its position in the data dict. -/
def update_history_item (s : HistoryState) (k : String) (response : Response) :
    HistoryState :=
  if (lookupData s.history_data k).isSome then
    { history_data := updateData s.history_data k
        (fun e => { e with response := response, subtitle := subtitle_markup response }),
      history_list := k :: s.history_list.erase k }
  else s

/-- Model of `add_to_history` (lines 30-50): no-op on an empty URL, then
update-or-create keyed by the fingerprint. -/
def add_to_history (s : HistoryState) (method url : String) (response : Response)
    (body : String) (headers : List (String × String)) : HistoryState :=
  if url = "" then s
  else
    let k := request_key method url
    if (lookupData s.history_data k).isSome then update_history_item s k response
    else create_history_item s k method url response body headers

/-- One recorded exchange, for folding whole call sequences. -/
structure RecordCall where
  method : String
  url : String
  response : Response
  body : String
  headers : List (String × String)
deriving DecidableEq

/-- The fingerprint of a recorded call. -/
def RecordCall.key (r : RecordCall) : String := request_key r.method r.url

/-- Folding a sequence of `add_to_history` calls from the empty history. -/
def recordAll (rs : List RecordCall) : HistoryState :=
  rs.foldl (fun s r => add_to_history s r.method r.url r.response r.body r.headers)
    emptyHistory

/-- The spec's `orderedView()`: the entries in ListBox row order,
rank 0 (most recent row) first. -/
def orderedView (s : HistoryState) : List HistoryEntry :=
  s.history_list.filterMap (lookupData s.history_data)

/-- Concrete response used as the first recording in test scenarios. -/
def respInit : Response := ⟨200, 5, "initial"⟩

/-- Concrete response used when a fingerprint is re-recorded. -/
def respUpd : Response := ⟨201, 7, "updated"⟩

/-- Concrete response used for the insert that triggers eviction. -/
def respFresh : Response := ⟨200, 5, "fresh"⟩

/-- Twenty recordings with pairwise distinct fingerprints `GET_u0` .. `GET_u19`. -/
def baseCalls : List RecordCall :=
  (List.range 20).map (fun i => ⟨"GET", "u" ++ toString i, respInit, "", []⟩)

/-- Twenty distinct recordings, then a re-recording of `GET_u0` (an update),
then a recording of the fresh fingerprint `GET_u20` (triggers eviction). -/
def evictScenario : List RecordCall :=
  baseCalls ++ [⟨"GET", "u0", respUpd, "", []⟩, ⟨"GET", "u20", respFresh, "", []⟩]

/-- Twenty-one recordings with pairwise distinct fingerprints. -/
def calls21 : List RecordCall := baseCalls ++ [⟨"GET", "u20", respFresh, "", []⟩]

/-- The pair stored in the data dict for one recorded call. -/
def entryPair (r : RecordCall) : String × HistoryEntry :=
  (r.key, mkEntry r.method r.url r.response r.body r.headers)

end Rappit

namespace Rappit

/-! ## Content formatter (src/app/formatter.py)

The `Formatter` class is pure string processing built on Python's `json`,
`re` and `xml.dom.minidom` standard-library modules.  The embedding works on
`List Char` and models:

* `json.loads` as a fuel-indexed recursive-descent parser (`parseVal`), with
  two model restrictions, both outside every claim's inputs: numbers with a
  fraction or exponent part are rejected (Python parses them as IEEE floats,
  which this embedding does not model), and `\uXXXX` escapes must denote a
  valid Unicode scalar value (Python strings admit lone surrogates, Lean
  `Char` does not).  Object members are kept in parse order; Python's dict
  would deduplicate repeated keys, which coincides with this model on every
  object without repeated keys.  Error messages are modelled as short
  constant strings standing in for `str(e)` of the `JSONDecodeError`.
* `json.dumps(parsed, indent=2, ensure_ascii=False)` as `serP` /
  `dumpsPretty`, and `json.dumps(parsed, separators=(',', ':'),
  ensure_ascii=False)` as `serC` / `dumpsCompact`.
* each regular expression of `formatter.py` as a hand-written scanner with
  the same matching semantics (left-to-right, non-overlapping `re.sub`).
* `str.strip()` / `\s` as the six ASCII whitespace characters; the further
  Unicode whitespace Python would also strip is outside the model.
* `xml.dom.minidom.parseString(..).toprettyxml(indent="  ")` as an abstract
  parameter `minidomFmt : String → Option String` (`none` models a parse
  exception); it is Python standard-library code, not repository code, and
  no claim depends on its output.
-/

/-- JSON whitespace accepted between tokens by `json.loads`. -/
def jsonWs (c : Char) : Bool := c = ' ' || c = '\t' || c = '\n' || c = '\r'

/-- ASCII whitespace stripped by Python's `str.strip()` and matched by `\s`. -/
def pyWs (c : Char) : Bool :=
  c = ' ' || c = '\t' || c = '\n' || c = '\r' || c = '\x0b' || c = '\x0c'

/-- ASCII decimal digit (the regex class `[0-9]`). -/
def isDigitC (c : Char) : Bool := '0' ≤ c && c ≤ '9'

/-- ASCII letter (the regex class `[a-zA-Z]`). -/
def isAlphaC (c : Char) : Bool := ('a' ≤ c && c ≤ 'z') || ('A' ≤ c && c ≤ 'Z')

/-- ASCII letter or digit (the regex class `[a-zA-Z0-9]`). -/
def isAlnumC (c : Char) : Bool := isAlphaC c || isDigitC c

/-- Python's `str.strip()` on a character list. -/
def pyStripL (l : List Char) : List Char :=
  ((l.dropWhile pyWs).reverse.dropWhile pyWs).reverse

/-- Python's `str.strip()`. -/
def pyStrip (s : String) : String := String.mk (pyStripL s.data)

/-- Python's `str.rstrip()` on a character list. -/
def pyStripRL (l : List Char) : List Char := (l.reverse.dropWhile pyWs).reverse

/-- Python's `str.lower()` on a character list (ASCII case folding). -/
def pyLowerL (l : List Char) : List Char := l.map Char.toLower

/-- Python's `sub in s` substring test, on character lists. -/
def containsSubL (sub : List Char) (l : List Char) : Bool :=
  match l with
  | [] => sub.isEmpty
  | _ :: t => sub.isPrefixOf l || containsSubL sub t

/-- Splitting on a newline character, Python's `content.split('\n')`. -/
def splitNlL (l : List Char) : List (List Char) :=
  match l with
  | [] => [[]]
  | c :: t =>
    if c = '\n' then [] :: splitNlL t
    else
      match splitNlL t with
      | [] => [[c]]
      | x :: xs => (c :: x) :: xs

/-- Python's `'\n'.join(..)` on character-list lines. -/
def joinNlL (ls : List (List Char)) : List Char := List.intercalate ['\n'] ls

/-! ### The JSON value model and serializers -/

mutual
/-- A JSON value as produced by `json.loads`: objects keep member order. -/
inductive Json where
  | null
  | bool (b : Bool)
  | num (n : Int)
  | str (s : String)
  | arr (xs : JsonArr)
  | obj (kvs : JsonObj)
/-- The items of a JSON array. -/
inductive JsonArr where
  | nil
  | cons (hd : Json) (tl : JsonArr)
/-- The members of a JSON object, in order. -/
inductive JsonObj where
  | nil
  | cons (k : String) (v : Json) (tl : JsonObj)
end

/-- Decimal digit character, `48 + n` for `n < 10`. -/
def digitChar (n : Nat) : Char := Char.ofNat (48 + n)

/-- Lowercase hexadecimal digit character (Python's `'%04x'` formatting). -/
def hexDigitChar (n : Nat) : Char :=
  if n < 10 then Char.ofNat (48 + n) else Char.ofNat (87 + n)

/-- Decimal digits of a natural number, most significant first, accumulated
onto `acc`; fuel-indexed so that it reduces in the kernel. -/
def natDigsAux : Nat → Nat → List Char → List Char
  | 0, _, acc => acc
  | fuel + 1, n, acc =>
    if n < 10 then digitChar n :: acc
    else natDigsAux fuel (n / 10) (digitChar (n % 10) :: acc)

/-- Decimal digits of a natural number, most significant first. -/
def natChars (n : Nat) : List Char := natDigsAux (n + 1) n []

/-- Python's `repr` of an int, as emitted by `json.dumps`. -/
def intChars (n : Int) : List Char :=
  if n < 0 then '-' :: natChars n.natAbs else natChars n.toNat

/-- The escape `json.dumps(ensure_ascii=False)` applies to one character:
quote, backslash and the named control escapes, `\u00xx` for the remaining
control characters, everything else verbatim. -/
def escapeChar (c : Char) : List Char :=
  if c = '"' then ['\\', '"']
  else if c = '\\' then ['\\', '\\']
  else if c = '\x08' then ['\\', 'b']
  else if c = '\x0c' then ['\\', 'f']
  else if c = '\n' then ['\\', 'n']
  else if c = '\r' then ['\\', 'r']
  else if c = '\t' then ['\\', 't']
  else if c.toNat < 32 then
    ['\\', 'u', '0', '0', hexDigitChar (c.toNat / 16), hexDigitChar (c.toNat % 16)]
  else [c]

/-- Escaping every character of a string body. -/
def escList : List Char → List Char
  | [] => []
  | c :: t => escapeChar c ++ escList t

/-- A serialized JSON string: quote, escaped body, quote. -/
def quoteChars (l : List Char) : List Char := '"' :: escList l ++ ['"']

mutual
/-- Compact serialization: `json.dumps(v, separators=(',', ':'),
ensure_ascii=False)`; an object member is `"key":value`. -/
def serC : Json → List Char
  | .null => "null".data
  | .bool b => if b then "true".data else "false".data
  | .num n => intChars n
  | .str s => quoteChars s.data
  | .arr .nil => ['[', ']']
  | .arr (.cons x xs) => '[' :: (serC x ++ serCItems xs ++ [']'])
  | .obj .nil => ['\x7b', '\x7d']
  | .obj (.cons k v ms) =>
    '\x7b' :: (quoteChars k.data ++ ':' :: serC v ++ serCMembers ms ++ ['\x7d'])
termination_by structural v => v
/-- Remaining compact array items, each preceded by a comma. -/
def serCItems : JsonArr → List Char
  | .nil => []
  | .cons x xs => ',' :: (serC x ++ serCItems xs)
termination_by structural xs => xs
/-- Remaining compact object members, each preceded by a comma. -/
def serCMembers : JsonObj → List Char
  | .nil => []
  | .cons k v ms => ',' :: (quoteChars k.data ++ ':' :: serC v ++ serCMembers ms)
termination_by structural ms => ms
end

/-- Indentation emitted by `json.dumps(indent=2)` at nesting level `k`. -/
def indK (k : Nat) : List Char := List.replicate (2 * k) ' '

mutual
/-- Pretty serialization at a nesting level:
`json.dumps(v, indent=2, ensure_ascii=False)`; an object member is
`"key": value`. -/
def serP : Json → Nat → List Char
  | .null, _ => "null".data
  | .bool b, _ => if b then "true".data else "false".data
  | .num n, _ => intChars n
  | .str s, _ => quoteChars s.data
  | .arr .nil, _ => ['[', ']']
  | .arr (.cons x xs), lvl =>
    '[' :: '\n' :: (indK (lvl + 1) ++ serP x (lvl + 1) ++ serPItems xs (lvl + 1)
      ++ '\n' :: (indK lvl ++ [']']))
  | .obj .nil, _ => ['\x7b', '\x7d']
  | .obj (.cons k v ms), lvl =>
    '\x7b' :: '\n' :: (indK (lvl + 1) ++ quoteChars k.data ++ ':' :: ' ' :: serP v (lvl + 1)
      ++ serPMembers ms (lvl + 1) ++ '\n' :: (indK lvl ++ ['\x7d']))
termination_by structural v => v
/-- Remaining pretty array items, each preceded by a comma, newline, indent. -/
def serPItems : JsonArr → Nat → List Char
  | .nil, _ => []
  | .cons x xs, lvl => ',' :: '\n' :: (indK lvl ++ serP x lvl ++ serPItems xs lvl)
termination_by structural xs => xs
/-- Remaining pretty object members, each preceded by a comma, newline, indent. -/
def serPMembers : JsonObj → Nat → List Char
  | .nil, _ => []
  | .cons k v ms, lvl =>
    ',' :: '\n' :: (indK lvl ++ quoteChars k.data ++ ':' :: ' ' :: serP v lvl
      ++ serPMembers ms lvl)
termination_by structural ms => ms
end

/-- The compact dump as a string. -/
def dumpsCompact (v : Json) : String := String.mk (serC v)

/-- The 2-space-indent dump as a string. -/
def dumpsPretty (v : Json) : String := String.mk (serP v 0)

/-! ### The JSON parser, modelling `json.loads` -/

/-- Skipping JSON whitespace between tokens. -/
def skipWs : List Char → List Char
  | [] => []
  | c :: r => if jsonWs c then skipWs r else c :: r

/-- Value of one hexadecimal digit, either case. -/
def hexVal (c : Char) : Option Nat :=
  if '0' ≤ c && c ≤ '9' then some (c.toNat - 48)
  else if 'a' ≤ c && c ≤ 'f' then some (c.toNat - 87)
  else if 'A' ≤ c && c ≤ 'F' then some (c.toNat - 55)
  else none

/-- Decoding of one simple backslash escape inside a JSON string. -/
def escDecode (e : Char) : Option Char :=
  if e = '"' then some '"'
  else if e = '\\' then some '\\'
  else if e = '/' then some '/'
  else if e = 'b' then some '\x08'
  else if e = 'f' then some '\x0c'
  else if e = 'n' then some '\n'
  else if e = 'r' then some '\r'
  else if e = 't' then some '\t'
  else none

/-- Four hexadecimal digits and the rest, for a `\\uXXXX` escape. -/
def hex4 : List Char → Option (Nat × List Char)
  | h1 :: h2 :: h3 :: h4 :: r =>
    match hexVal h1, hexVal h2, hexVal h3, hexVal h4 with
    | some a, some b, some c, some d => some (((a * 16 + b) * 16 + c) * 16 + d, r)
    | _, _, _, _ => none
  | _ => none

/-- Parsing the body of a JSON string after the opening quote: content
characters until the closing quote, with escapes decoded and raw control
characters rejected (strict mode); fuel-indexed so that it reduces in the
kernel (one unit per produced character suffices). -/
def parseStrAux : Nat → List Char → Except String (List Char × List Char)
  | 0, _ => .error "Unterminated string"
  | fuel + 1, l =>
    match l with
    | [] => .error "Unterminated string"
    | c :: r =>
      if c = '"' then .ok ([], r)
      else if c = '\\' then
        match r with
        | [] => .error "Unterminated string"
        | e :: r2 =>
          if e = 'u' then
            match hex4 r2 with
            | some (code, r3) =>
              if Nat.isValidChar code then
                match parseStrAux fuel r3 with
                | .ok (cs, r4) => .ok (Char.ofNat code :: cs, r4)
                | .error er => .error er
              else .error "Invalid unicode escape"
            | none => .error "Invalid unicode escape"
          else
            match escDecode e with
            | some ec =>
              match parseStrAux fuel r2 with
              | .ok (cs, r3) => .ok (ec :: cs, r3)
              | .error er => .error er
            | none => .error "Invalid escape"
      else if c.toNat < 32 then .error "Invalid control character"
      else
        match parseStrAux fuel r with
        | .ok (cs, r2) => .ok (c :: cs, r2)
        | .error er => .error er

/-- The maximal run of decimal digits and the rest. -/
def takeDigits : List Char → List Char × List Char
  | [] => ([], [])
  | c :: r =>
    if isDigitC c then
      let (ds, rest) := takeDigits r
      (c :: ds, rest)
    else ([], c :: r)

/-- Value of a digit string, accumulated left to right. -/
def digitsToNat : List Char → Nat → Nat
  | [], a => a
  | c :: r, a => digitsToNat r (a * 10 + (c.toNat - 48))

/-- The integer part of the number grammar `0 | [1-9][0-9]*`: a lone zero is
not extended with further digits, matching Python's `NUMBER_RE`. -/
def parseIntPart : List Char → Except String (Nat × List Char)
  | [] => .error "Expecting value"
  | c :: r =>
    if c = '0' then .ok (0, r)
    else if isDigitC c then
      let (ds, rest) := takeDigits r
      .ok (digitsToNat ds (c.toNat - 48), rest)
    else .error "Expecting value"

/-- Whether a fraction or exponent part follows (which Python would parse as
an IEEE float; the embedding rejects it, see the module comment). -/
def floatFollows : List Char → Bool
  | [] => false
  | c :: _ => c = '.' || c = 'e' || c = 'E'

/-- Parsing a JSON number (integer fragment). -/
def parseNum (l : List Char) : Except String (Json × List Char) :=
  match l with
  | '-' :: r =>
    match parseIntPart r with
    | .ok (n, rest) =>
      if floatFollows rest then .error "Float numbers outside model"
      else .ok (.num (-(n : Int)), rest)
    | .error e => .error e
  | _ =>
    match parseIntPart l with
    | .ok (n, rest) =>
      if floatFollows rest then .error "Float numbers outside model"
      else .ok (.num (n : Int), rest)
    | .error e => .error e

mutual
/-- Recursive-descent parser for one JSON value, fuel-indexed. -/
def parseVal : Nat → List Char → Except String (Json × List Char)
  | 0, _ => .error "Expecting value"
  | fuel + 1, l =>
    match skipWs l with
    | [] => .error "Expecting value"
    | c :: r =>
      if c = 'n' then
        match r with
        | 'u' :: 'l' :: 'l' :: r2 => .ok (.null, r2)
        | _ => .error "Expecting value"
      else if c = 't' then
        match r with
        | 'r' :: 'u' :: 'e' :: r2 => .ok (.bool true, r2)
        | _ => .error "Expecting value"
      else if c = 'f' then
        match r with
        | 'a' :: 'l' :: 's' :: 'e' :: r2 => .ok (.bool false, r2)
        | _ => .error "Expecting value"
      else if c = '"' then
        match parseStrAux (r.length + 1) r with
        | .ok (cs, r2) => .ok (.str (String.mk cs), r2)
        | .error e => .error e
      else if c = '[' then
        match skipWs r with
        | [] => .error "Expecting value"
        | c2 :: r2 =>
          if c2 = ']' then .ok (.arr .nil, r2)
          else
            match parseVal fuel (c2 :: r2) with
            | .ok (v, r3) =>
              match parseArrRest fuel r3 with
              | .ok (xs, r4) => .ok (.arr (.cons v xs), r4)
              | .error e => .error e
            | .error e => .error e
      else if c = '\x7b' then
        match skipWs r with
        | [] => .error "Expecting property name"
        | c2 :: r2 =>
          if c2 = '\x7d' then .ok (.obj .nil, r2)
          else if c2 = '"' then
            match parseStrAux (r2.length + 1) r2 with
            | .ok (ks, r3) =>
              match skipWs r3 with
              | [] => .error "Expecting colon delimiter"
              | c3 :: r4 =>
                if c3 = ':' then
                  match parseVal fuel r4 with
                  | .ok (v, r5) =>
                    match parseObjRest fuel r5 with
                    | .ok (ms, r6) => .ok (.obj (.cons (String.mk ks) v ms), r6)
                    | .error e => .error e
                  | .error e => .error e
                else .error "Expecting colon delimiter"
            | .error e => .error e
          else .error "Expecting property name"
      else if c = '-' || isDigitC c then parseNum (c :: r)
      else .error "Expecting value"
/-- The remaining items of an array after the first: `, value`* then `]`. -/
def parseArrRest : Nat → List Char → Except String (JsonArr × List Char)
  | 0, _ => .error "Expecting comma delimiter"
  | fuel + 1, l =>
    match skipWs l with
    | [] => .error "Expecting comma delimiter"
    | c :: r =>
      if c = ']' then .ok (.nil, r)
      else if c = ',' then
        match parseVal fuel r with
        | .ok (v, r2) =>
          match parseArrRest fuel r2 with
          | .ok (xs, r3) => .ok (.cons v xs, r3)
          | .error e => .error e
        | .error e => .error e
      else .error "Expecting comma delimiter"
/-- The remaining members of an object after the first: `, "key": value`*
then the closing brace. -/
def parseObjRest : Nat → List Char → Except String (JsonObj × List Char)
  | 0, _ => .error "Expecting comma delimiter"
  | fuel + 1, l =>
    match skipWs l with
    | [] => .error "Expecting comma delimiter"
    | c :: r =>
      if c = '\x7d' then .ok (.nil, r)
      else if c = ',' then
        match skipWs r with
        | [] => .error "Expecting property name"
        | c2 :: r2 =>
          if c2 = '"' then
            match parseStrAux (r2.length + 1) r2 with
            | .ok (ks, r3) =>
              match skipWs r3 with
              | [] => .error "Expecting colon delimiter"
              | c3 :: r4 =>
                if c3 = ':' then
                  match parseVal fuel r4 with
                  | .ok (v, r5) =>
                    match parseObjRest fuel r5 with
                    | .ok (ms, r6) => .ok (.cons (String.mk ks) v ms, r6)
                    | .error e => .error e
                  | .error e => .error e
                else .error "Expecting colon delimiter"
            | .error e => .error e
          else .error "Expecting property name"
      else .error "Expecting comma delimiter"
end

mutual
/-- Parser-call bound for one value: fuel at least this large lets `parseVal`
consume the value's serialization. -/
def jsize : Json → Nat
  | .null => 1
  | .bool _ => 1
  | .num _ => 1
  | .str _ => 1
  | .arr xs => 1 + jsizeArr xs
  | .obj kvs => 1 + jsizeObj kvs
termination_by structural v => v
/-- Parser-call bound for the remaining items of an array. -/
def jsizeArr : JsonArr → Nat
  | .nil => 1
  | .cons x xs => jsize x + 1 + jsizeArr xs
termination_by structural xs => xs
/-- Parser-call bound for the remaining members of an object. -/
def jsizeObj : JsonObj → Nat
  | .nil => 1
  | .cons _ v kvs => jsize v + 1 + jsizeObj kvs
termination_by structural kvs => kvs
end

/-- Whether a character list may safely follow a serialized number without
extending it: its head is no digit and no fraction or exponent mark. -/
def numSafe : List Char → Bool
  | [] => true
  | c :: _ => !(isDigitC c || c = '.' || c = 'e' || c = 'E')

/-- Fuel that always suffices for an input of the given length. -/
def jsonFuel (l : List Char) : Nat := 2 * l.length + 4

/-- Model of `json.loads`: parse one value, then only whitespace may remain. -/
def jsonLoads (s : String) : Except String Json :=
  match parseVal (jsonFuel s.data) s.data with
  | .ok (v, rest) => if skipWs rest = [] then .ok v else .error "Extra data"
  | .error e => .error e

/-! ### Regular-expression models used by `format_json` and `minify_content` -/

/-- Lookahead for `\\s*C` right after a comma (the tail of the patterns
`,\\s*\x7d` and `,\\s*]`): returns the rest after the closing character. -/
def wsThenClose (close : Char) : List Char → Option (List Char)
  | [] => none
  | c :: r => if c = close then some r else if pyWs c then wsThenClose close r else none

/-- One left-to-right, non-overlapping `re.sub` pass replacing `,\\s*C`
with `C`; fuel-indexed so that it reduces in the kernel. -/
def stripCommaCloseAux : Nat → Char → List Char → List Char
  | 0, _, l => l
  | fuel + 1, close, l =>
    match l with
    | [] => []
    | c :: r =>
      if c = ',' then
        match wsThenClose close r with
        | some r2 => close :: stripCommaCloseAux fuel close r2
        | none => c :: stripCommaCloseAux fuel close r
      else c :: stripCommaCloseAux fuel close r

/-- The `re.sub(r',\\s*C', 'C', content)` pass of `format_json`. -/
def stripCommaClose (close : Char) (l : List Char) : List Char :=
  stripCommaCloseAux (l.length + 1) close l

/-- The repaired content of `format_json`: first the `,\\s*\x7d` pass, then
the `,\\s*]` pass, as in lines 167-168 of `formatter.py`. -/
def repairJson (l : List Char) : List Char :=
  stripCommaClose ']' (stripCommaClose '\x7d' l)

/-- The suffix after the first `-->`, if any. -/
def dropAfterClose : List Char → Option (List Char)
  | [] => none
  | c :: r =>
    if "-->".data.isPrefixOf (c :: r) then some ((c :: r).drop 3)
    else dropAfterClose r

/-- The `re.sub(r'<!--.*?-->', '', content, flags=re.DOTALL)` pass: each
`<!--` is dropped together with everything up to the nearest `-->`; an
unclosed `<!--` matches nothing and the remainder is kept verbatim. -/
def stripHtmlCommentsAux : Nat → List Char → List Char
  | 0, l => l
  | fuel + 1, l =>
    match l with
    | [] => []
    | c :: r =>
      if "<!--".data.isPrefixOf (c :: r) then
        match dropAfterClose (r.drop 3) with
        | some r2 => stripHtmlCommentsAux fuel r2
        | none => c :: r
      else c :: stripHtmlCommentsAux fuel r

/-- Comment stripping with sufficient fuel. -/
def stripHtmlComments (l : List Char) : List Char :=
  stripHtmlCommentsAux (l.length + 1) l

/-- The `re.sub(r'\\s+', ' ', content)` pass: each maximal whitespace run
becomes one space. -/
def collapseWsAux : Nat → List Char → List Char
  | 0, l => l
  | fuel + 1, l =>
    match l with
    | [] => []
    | c :: r =>
      if pyWs c then ' ' :: collapseWsAux fuel (r.dropWhile pyWs)
      else c :: collapseWsAux fuel r

/-- Whitespace collapsing with sufficient fuel. -/
def collapseWs (l : List Char) : List Char := collapseWsAux (l.length + 1) l

/-- The `re.sub(r'>\\s+<', '><', content)` pass. -/
def removeInterTagWsAux : Nat → List Char → List Char
  | 0, l => l
  | fuel + 1, l =>
    match l with
    | [] => []
    | c :: r =>
      if c = '>' then
        match r with
        | d :: r2 =>
          if pyWs d then
            match r2.dropWhile pyWs with
            | '<' :: r3 => '>' :: '<' :: removeInterTagWsAux fuel r3
            | _ => c :: removeInterTagWsAux fuel r
          else c :: removeInterTagWsAux fuel r
        | [] => [c]
      else c :: removeInterTagWsAux fuel r

/-- Inter-tag whitespace removal with sufficient fuel. -/
def removeInterTagWs (l : List Char) : List Char :=
  removeInterTagWsAux (l.length + 1) l

/-- The `re.sub(r'>\\s*<', '>\\n<', content)` pass of the manual XML and
HTML indenters: a line break between adjacent tags. -/
def insertBreaksAux : Nat → List Char → List Char
  | 0, l => l
  | fuel + 1, l =>
    match l with
    | [] => []
    | c :: r =>
      if c = '>' then
        match r.dropWhile pyWs with
        | '<' :: r2 => '>' :: '\n' :: '<' :: insertBreaksAux fuel r2
        | _ => c :: insertBreaksAux fuel r
      else c :: insertBreaksAux fuel r

/-- Tag-splitting with sufficient fuel. -/
def insertBreaks (l : List Char) : List Char := insertBreaksAux (l.length + 1) l

/-! ### Content-type detection (`_is_json`, `_is_xml`, `_is_html`) -/

/-- The character class `[>\\s]` of the raw-string pattern
`r'^<[a-zA-Z][a-zA-Z0-9]*[>\\s]'` in `_is_xml` (line 108).  In a raw string
`\\s` is an escaped backslash followed by `s`, so the class matches a
greater-than sign, a backslash, or the letter `s` -- not whitespace. -/
def xmlBuggyClass (c : Char) : Bool := c = '>' || c = '\\' || c = 's'

/-- Scanning `[a-zA-Z0-9]*[>\\s]` after the first tag letter: a match exists
iff some alphanumeric run is followed by a class character. -/
def xmlBuggyTail : List Char → Bool
  | [] => false
  | c :: r => if xmlBuggyClass c then true else if isAlnumC c then xmlBuggyTail r else false

/-- The anchored match `re.match(r'^<[a-zA-Z][a-zA-Z0-9]*[>\\s]', content)`. -/
def xmlStartMatch : List Char → Bool
  | '<' :: c :: r => isAlphaC c && xmlBuggyTail r
  | _ => false

/-- Scanning `[a-zA-Z0-9]*(?:\\s|>)` after the first tag letter of
`re.findall(r'<([a-zA-Z][a-zA-Z0-9]*)(?:\\s|>)', content)` (here `\\s` is a
proper whitespace class: the pattern is a raw string with single backslash). -/
def openTagTail : List Char → Bool
  | [] => false
  | c :: r => if pyWs c || c = '>' then true else if isAlnumC c then openTagTail r else false

/-- Whether at least one open-tag match exists anywhere in the content. -/
def hasOpenTag : List Char → Bool
  | [] => false
  | '<' :: c :: r => (isAlphaC c && openTagTail r) || hasOpenTag (c :: r)
  | _ :: r => hasOpenTag r

/-- Scanning `[a-zA-Z0-9]*>` after the first tag letter of
`re.findall(r'</([a-zA-Z][a-zA-Z0-9]*)>', content)`. -/
def closeTagTail : List Char → Bool
  | [] => false
  | c :: r => if c = '>' then true else if isAlnumC c then closeTagTail r else false

/-- Whether at least one close-tag match exists anywhere in the content. -/
def hasCloseTag : List Char → Bool
  | [] => false
  | '<' :: '/' :: c :: r => (isAlphaC c && closeTagTail r) || hasCloseTag ('/' :: c :: r)
  | _ :: r => hasCloseTag r

/-- Model of `_is_json` (lines 57-86): structural gate (braces or brackets),
then a parse attempt, then the loose quote-plus-punctuation heuristic. -/
def is_json (content : String) : Bool :=
  let l := pyStripL content.data
  if l.isEmpty then false
  else
    let pats := ("\x7b".data.isPrefixOf l && "\x7d".data.isSuffixOf l)
      || ("[".data.isPrefixOf l && "]".data.isSuffixOf l)
    if pats then
      match jsonLoads (String.mk l) with
      | .ok _ => true
      | .error _ =>
        containsSubL "\"".data l
          && (containsSubL ":".data l || containsSubL "[".data l || containsSubL "\x7b".data l)
    else false

/-- Model of `_is_xml` (lines 88-117): declaration or root-element gates
(including the buggy anchored match), confirmed by an open or close tag. -/
def is_xml (content : String) : Bool :=
  let l := pyStripL content.data
  if l.isEmpty then false
  else
    let pats := "<?xml".data.isPrefixOf l || "<soap:".data.isPrefixOf l
      || "<rss".data.isPrefixOf l || "<feed".data.isPrefixOf l || xmlStartMatch l
    if pats then hasOpenTag l || hasCloseTag l
    else false

/-- The fixed HTML marker substrings of `_is_html` (lines 134-146). -/
def htmlMarkers : List String :=
  ["<!doctype html", "<html", "<head", "<body", "<div", "<p>", "<span", "<h1", "<h2",
   "<table", "<style", "<script"]

/-- Model of `_is_html` (lines 119-148): case-insensitive substring match
against the fixed marker set. -/
def is_html (content : String) : Bool :=
  let l := pyStripL (pyLowerL content.data)
  if l.isEmpty then false
  else htmlMarkers.any (fun m => containsSubL m.data l)

/-- The detection kinds of the spec's `detect`. -/
inductive Kind where
  | json
  | xml
  | html
  | plain
deriving DecidableEq

/-- The auto-detection chain of `format_content` (lines 48-53), applied to
already-stripped content; everything unmatched is plain. -/
def detect_kind (content : String) : Kind :=
  if is_json content then .json
  else if is_xml content then .xml
  else if is_html content then .html
  else .plain

/-! ### The formatting operations -/

/-- Model of `format_json` (lines 150-174): parse and pretty-print; on a
parse error run the trailing-comma repair pass and retry; if that also
fails, return the error marker with the first error message followed by the
content as it stands after the repair pass (the local variable `content` was
reassigned by the two `re.sub` calls before the marker string is built). -/
def format_json (content : String) : String :=
  match jsonLoads content with
  | .ok v => dumpsPretty v
  | .error e =>
    let repaired := String.mk (repairJson content.data)
    match jsonLoads repaired with
    | .ok v => dumpsPretty v
    | .error _ => "/* JSON Format Error: " ++ e ++ " */\n" ++ repaired

/-- Indentation `'  ' * indent_level`: a negative level yields the empty
string, as in Python. -/
def indentL (lvl : Int) : List Char := List.replicate (2 * lvl.toNat) ' '

/-- One line step of `_simple_xml_format` (lines 225-250): strip the line,
skip blanks, print the declaration unindented, dedent before a closing tag,
keep level on a self-closing tag, and indent after an opening tag that is
not self-closing and holds no inline closing tag. -/
def xmlStep (st : Int × List (List Char)) (rawLine : List Char) :
    Int × List (List Char) :=
  let line := pyStripL rawLine
  if line.isEmpty then st
  else if "<?xml".data.isPrefixOf line then (st.1, st.2 ++ [line])
  else if "</".data.isPrefixOf line then
    let lvl := max 0 (st.1 - 1)
    (lvl, st.2 ++ [indentL lvl ++ line])
  else if "/>".data.isSuffixOf line then (st.1, st.2 ++ [indentL st.1 ++ line])
  else if "<".data.isPrefixOf line then
    let out := st.2 ++ [indentL st.1 ++ line]
    if !("/>".data.isSuffixOf line) && !(containsSubL "</".data line) then
      (st.1 + 1, out)
    else (st.1, out)
  else (st.1, st.2 ++ [indentL st.1 ++ line])

/-- The formatted lines of `_simple_xml_format` (lines 208-252). -/
def simple_xml_format_lines (content : String) : List (List Char) :=
  ((splitNlL (insertBreaks content.data)).foldl xmlStep ((0 : Int), [])).2

/-- Model of `_simple_xml_format`: split adjacent tags onto lines, walk them
with `xmlStep`, and join. -/
def simple_xml_format (content : String) : String :=
  String.mk (joinNlL (simple_xml_format_lines content))

/-- The HTML5 void elements of `_simple_html_format` (lines 286-287). -/
def void_elements : List String :=
  ["area", "base", "br", "col", "embed", "hr", "img", "input", "link", "meta",
   "param", "source", "track", "wbr"]

/-- The tag name extracted by `re.match(r'<([a-zA-Z][a-zA-Z0-9]*)', line)`. -/
def extractTagName : List Char → Option (List Char)
  | '<' :: c :: r => if isAlphaC c then some (c :: r.takeWhile isAlnumC) else none
  | _ => none

/-- One line step of `_simple_html_format` (lines 289-322): like `xmlStep`
with a doctype line, comment lines, a void-element closing-tag test, and the
void-element-aware indent rule for opening tags. -/
def htmlStep (st : Int × List (List Char)) (rawLine : List Char) :
    Int × List (List Char) :=
  let line := pyStripL rawLine
  if line.isEmpty then st
  else if "<!doctype".data.isPrefixOf (pyLowerL line) then (st.1, st.2 ++ [line])
  else if "<!--".data.isPrefixOf line then (st.1, st.2 ++ [indentL st.1 ++ line])
  else if "</".data.isPrefixOf line then
    let lvl := max 0 (st.1 - 1)
    (lvl, st.2 ++ [indentL lvl ++ line])
  else if (void_elements.any
        (fun t => ("</" ++ t ++ ">").data.isSuffixOf (pyStripRL line)))
      || "/>".data.isSuffixOf line then
    (st.1, st.2 ++ [indentL st.1 ++ line])
  else if "<".data.isPrefixOf line then
    let out := st.2 ++ [indentL st.1 ++ line]
    match extractTagName line with
    | some nm =>
      if !(void_elements.contains (String.mk (pyLowerL nm)))
          && !("/>".data.isSuffixOf line) then
        if !(containsSubL ("</" ++ String.mk nm ++ ">").data line) then
          (st.1 + 1, out)
        else (st.1, out)
      else (st.1, out)
    | none => (st.1, out)
  else (st.1, st.2 ++ [indentL st.1 ++ line])

/-- The formatted lines of `_simple_html_format` (lines 269-324). -/
def simple_html_format_lines (content : String) : List (List Char) :=
  ((splitNlL (insertBreaks content.data)).foldl htmlStep ((0 : Int), [])).2

/-- Model of `_simple_html_format`. -/
def simple_html_format (content : String) : String :=
  String.mk (joinNlL (simple_html_format_lines content))

/-- Model of `format_html` (lines 254-267): the manual indenter; its body is
total, so the `except` wrapper that would prepend the HTML error marker
never fires in the model. -/
def format_html (content : String) : String := simple_html_format content

/-- Model of `format_xml` (lines 176-206).  `minidomFmt` abstracts
`xml.dom.minidom.parseString(..).toprettyxml(indent="  ")` (standard-library
code; `none` models a parse exception): on success drop blank lines, on
failure fall back to the manual indenter applied to the
declaration-prepended content. -/
def format_xml (minidomFmt : String → Option String) (content : String) : String :=
  let c1 := pyStrip content
  let c2 :=
    if "<?xml".data.isPrefixOf c1.data then c1
    else "<?xml version=\"1.0\" encoding=\"UTF-8\"?>\n" ++ c1
  match minidomFmt c2 with
  | some pretty =>
    String.mk (joinNlL ((splitNlL pretty.data).filter (fun ln => !(pyStripL ln).isEmpty)))
  | none => simple_xml_format c2

/-- Model of `format_content` (lines 16-55): empty or whitespace-only input
is returned unchanged; otherwise the input is stripped, a usable type hint
is tried first (its result is kept unless it starts with the corresponding
error marker), and detection order JSON, XML, HTML decides the rest; plain
content falls through to `return content` -- the stripped content. -/
def format_content (minidomFmt : String → Option String) (content : String)
    (content_type : Option String) : String :=
  if content = "" ∨ pyStrip content = "" then content
  else
    let c := pyStrip content
    let hinted : Option String :=
      match content_type with
      | none => none
      | some ct =>
        if ct = "" then none
        else if containsSubL "json".data ct.data then
          let r := format_json c
          if !("/* JSON Format Error".data.isPrefixOf r.data) then some r else none
        else if containsSubL "xml".data ct.data then
          let r := format_xml minidomFmt c
          if !("<!-- XML Format Error".data.isPrefixOf r.data) then some r else none
        else if containsSubL "html".data ct.data then
          let r := format_html c
          if !("<!-- HTML Format Error".data.isPrefixOf r.data) then some r else none
        else none
    match hinted with
    | some r => r
    | none =>
      if is_json c then format_json c
      else if is_xml c then format_xml minidomFmt c
      else if is_html c then format_html c
      else c

/-- Model of `minify_content` (lines 326-356): empty input unchanged; a JSON
branch (detected or hinted) that re-serializes compactly and silently keeps
the input on a parse error, skipping the XML/HTML branch; an XML/HTML branch
that strips comments, collapses whitespace, removes inter-tag whitespace and
strips the ends; otherwise the input unchanged. -/
def minify_content (content : String) (content_type : Option String) : String :=
  if content = "" then content
  else if is_json content
      || (match content_type with
          | some ct => ct ≠ "" && containsSubL "json".data ct.data
          | none => false) then
    match jsonLoads content with
    | .ok v => dumpsCompact v
    | .error _ => content
  else if is_xml content || is_html content then
    String.mk (pyStripL (removeInterTagWs (collapseWs (stripHtmlComments content.data))))
  else content

end Rappit

namespace Rappit

/-! ## Helper lemmas for the history cache -/

theorem lookupData_eq_none (d : List (String × HistoryEntry)) (k : String)
    (h : k ∉ d.map Prod.fst) : lookupData d k = none := by
  induction d with
  | nil => rfl
  | cons p t ih =>
    obtain ⟨k', e⟩ := p
    simp only [List.map_cons, List.mem_cons, not_or] at h
    simp only [lookupData, if_neg (Ne.symm h.1), ih h.2]

theorem recordAll_append_singleton (rs : List RecordCall) (r : RecordCall) :
    recordAll (rs ++ [r])
      = add_to_history (recordAll rs) r.method r.url r.response r.body r.headers := by
  simp [recordAll, List.foldl_append]

theorem remove_oldest_item_cons (k0 : String) (e0 : HistoryEntry)
    (t : List (String × HistoryEntry)) (L : List String) :
    remove_oldest_item ⟨(k0, e0) :: t, L⟩ = ⟨t, L.erase k0⟩ := by
  simp [remove_oldest_item, remove_history_item, lookupData, removeData]

theorem updateData_map_fst (d : List (String × HistoryEntry)) (k : String)
    (f : HistoryEntry → HistoryEntry) :
    (updateData d k f).map Prod.fst = d.map Prod.fst := by
  induction d with
  | nil => rfl
  | cons p t ih =>
    obtain ⟨k', e⟩ := p
    by_cases hk : k' = k
    · simp [updateData, hk]
    · simp [updateData, hk, ih]

theorem updateData_length (d : List (String × HistoryEntry)) (k : String)
    (f : HistoryEntry → HistoryEntry) :
    (updateData d k f).length = d.length := by
  induction d with
  | nil => rfl
  | cons p t ih =>
    obtain ⟨k', e⟩ := p
    by_cases hk : k' = k
    · simp [updateData, hk]
    · simp [updateData, hk, ih]

theorem recordAll_closed_form (rs : List RecordCall)
    (hn : (rs.map RecordCall.key).Nodup)
    (hu : ∀ r ∈ rs, r.url ≠ "") :
    (recordAll rs).history_data = (rs.map entryPair).drop (rs.length - max_items) ∧
    (recordAll rs).history_list
      = (((rs.map entryPair).drop (rs.length - max_items)).map Prod.fst).reverse := by
  induction rs using List.reverseRecOn with
  | nil => exact ⟨rfl, rfl⟩
  | append_singleton rs r ih =>
    have hsplit := List.nodup_append.mp
      (show ((rs.map RecordCall.key) ++ [r.key]).Nodup by simpa using hn)
    have hn' : (rs.map RecordCall.key).Nodup := hsplit.1
    have hfresh : r.key ∉ rs.map RecordCall.key := fun hmem => hsplit.2.2 hmem (by simp)
    have hu' : ∀ x ∈ rs, x.url ≠ "" := fun x hx => hu x (by simp [hx])
    have hur : r.url ≠ "" := hu r (by simp)
    obtain ⟨hd, hl⟩ := ih hn' hu'
    have hkeys : ∀ m, ((rs.map entryPair).drop m).map Prod.fst
        = (rs.map RecordCall.key).drop m := by
      intro m
      rw [← List.map_drop, ← List.map_drop, List.map_map]
      rfl
    have hlookup : lookupData (recordAll rs).history_data r.key = none := by
      apply lookupData_eq_none
      rw [hd, hkeys]
      exact fun hmem => hfresh (List.mem_of_mem_drop hmem)
    have hlookup' : lookupData (recordAll rs).history_data (request_key r.method r.url) = none :=
      hlookup
    rw [recordAll_append_singleton, add_to_history, if_neg hur]
    simp only [hlookup', Option.isSome_none, Bool.false_eq_true, if_false]
    rw [create_history_item]
    have hdlen : (recordAll rs).history_data.length = rs.length - (rs.length - max_items) := by
      rw [hd, List.length_drop, List.length_map]
    by_cases hc : rs.length < max_items
    · have hnogrow : ¬ (((recordAll rs).history_data
          ++ [(request_key r.method r.url, mkEntry r.method r.url r.response r.body r.headers)]).length > max_items) := by
        rw [List.length_append, hdlen]
        simp only [max_items] at *
        simp
        omega
      simp only [if_neg hnogrow]
      have e1 : rs.length - max_items = 0 := by omega
      have e2 : (rs ++ [r]).length - max_items = 0 := by
        rw [List.length_append]
        simp only [max_items] at *
        simp
        omega
      constructor
      · rw [hd, e1, e2, List.drop_zero, List.drop_zero, List.map_append]
        rfl
      · rw [hl, e1, e2, List.drop_zero, List.drop_zero, List.map_append, List.map_append,
          List.reverse_append]
        rfl
    · have hge : max_items ≤ rs.length := Nat.le_of_not_lt hc
      have hm20 : max_items = 20 := rfl
      have hlen20 : (recordAll rs).history_data.length = max_items := by
        rw [hdlen]; omega
      have hgrow : ((recordAll rs).history_data
          ++ [(request_key r.method r.url, mkEntry r.method r.url r.response r.body r.headers)]).length > max_items := by
        rw [List.length_append, hlen20]; simp
      simp only [if_pos hgrow]
      obtain ⟨d0, Dt, hD⟩ : ∃ d0 Dt, (recordAll rs).history_data = d0 :: Dt := by
        match hE : (recordAll rs).history_data with
        | [] => rw [hE] at hlen20; simp [max_items] at hlen20
        | d0 :: Dt => exact ⟨d0, Dt, rfl⟩
      obtain ⟨k0, e0⟩ := d0
      have hl' : (recordAll rs).history_list
          = ((recordAll rs).history_data.map Prod.fst).reverse := by rw [hl, hd]
      have hDkeys : (recordAll rs).history_data.map Prod.fst
          = (rs.map RecordCall.key).drop (rs.length - max_items) := by
        rw [hd, hkeys]
      have hDnodup : ((recordAll rs).history_data.map Prod.fst).Nodup := by
        rw [hDkeys]; exact hn'.sublist (List.drop_sublist _ _)
      have hk0c : (recordAll rs).history_data.map Prod.fst = k0 :: Dt.map Prod.fst := by
        rw [hD]; rfl
      have hk0mem : k0 ∈ rs.map RecordCall.key := by
        have hmem0 : k0 ∈ (recordAll rs).history_data.map Prod.fst := by rw [hk0c]; simp
        rw [hDkeys] at hmem0; exact List.mem_of_mem_drop hmem0
      have hkne : request_key r.method r.url ≠ k0 := fun he => hfresh (by
        have hkk : r.key = request_key r.method r.url := rfl
        rw [hkk, he]; exact hk0mem)
      have hk0notDt : k0 ∉ Dt.map Prod.fst := by
        have hh := hDnodup; rw [hk0c] at hh; exact (List.nodup_cons.mp hh).1
      have hDt : Dt = (rs.map entryPair).drop (rs.length - max_items + 1) := by
        have := congrArg List.tail (hD.symm.trans hd)
        simpa [List.tail_drop] using this
      have hle : rs.length - max_items + 1 ≤ (rs.map entryPair).length := by
        rw [List.length_map]; omega
      have hnewdata : Dt ++ [(request_key r.method r.url, mkEntry r.method r.url r.response r.body r.headers)]
          = ((rs ++ [r]).map entryPair).drop ((rs ++ [r]).length - max_items) := by
        rw [List.map_append, List.length_append]
        have e3 : rs.length + [r].length - max_items = (rs.length - max_items) + 1 := by
          simp only [List.length_cons, List.length_nil]; omega
        rw [e3, List.drop_append_of_le_length hle, ← hDt]
        rfl
      rw [hD, List.cons_append, remove_oldest_item_cons]
      constructor
      · exact hnewdata
      · rw [← hnewdata, List.map_append, List.reverse_append, hl', hk0c, List.reverse_cons]
        rw [List.erase_cons]
        simp only [beq_iff_eq, if_neg hkne]
        rw [List.erase_append_right _ (by simpa using hk0notDt)]
        simp

theorem filterMap_lookup_self (d : List (String × HistoryEntry))
    (h : (d.map Prod.fst).Nodup) :
    (d.map Prod.fst).filterMap (lookupData d) = d.map Prod.snd := by
  induction d with
  | nil => rfl
  | cons p t ih =>
    obtain ⟨k0, e0⟩ := p
    rw [List.map_cons] at h
    have h' := List.nodup_cons.mp h
    simp only [List.map_cons, List.filterMap_cons]
    rw [show lookupData ((k0, e0) :: t) k0 = some e0 by simp [lookupData]]
    rw [List.filterMap_congr (fun k hk => show lookupData ((k0, e0) :: t) k = lookupData t k by
      simp only [lookupData]
      rw [if_neg (by intro he; exact h'.1 (by rw [he]; exact hk))]), ih h'.2]

end Rappit

namespace Rappit

/-- Claim C1, counterexample: after recording 20 distinct fingerprints, re-recording
`GET_u0` (which moves its row to rank 0, so it is the most recently touched entry),
and then recording the fresh fingerprint `GET_u20`, the evicted entry is `GET_u0`
itself, while `GET_u1` -- touched less recently than `GET_u0` -- survives. This
refutes the claim that an updated entry cannot be the eviction victim while less
recently touched entries exist. -/
theorem C1_counterexample :
    (orderedView (recordAll (baseCalls ++ [⟨"GET", "u0", respUpd, "", []⟩]))).head?
        = some (mkEntry "GET" "u0" respUpd "" []) ∧
    lookupData (recordAll evictScenario).history_data "GET_u0" = none ∧
    (lookupData (recordAll evictScenario).history_data "GET_u1").isSome = true := by
  decide

/-- Claim C1, amended: when inserting a new fingerprint into a full cache
(20 entries), the evicted entry is exactly the first entry of the insertion-ordered
data dict, i.e. the least recently created one; and an update (re-recording an
existing fingerprint) never changes the dict's key order or its cardinality, so
updating does not protect an entry from eviction. -/
theorem C1_theorem :
    (∀ (s : HistoryState) (m u : String) (r : Response) (b : String)
        (hs : List (String × String)),
        u ≠ "" →
        lookupData s.history_data (request_key m u) = none →
        s.history_data.length = max_items →
        (add_to_history s m u r b hs).history_data
          = s.history_data.tail ++ [(request_key m u, mkEntry m u r b hs)]) ∧
    (∀ (s : HistoryState) (k : String) (r : Response),
        (update_history_item s k r).history_data.map Prod.fst
            = s.history_data.map Prod.fst ∧
        (update_history_item s k r).history_data.length = s.history_data.length) := by
  constructor
  · intro s m u r b hs hu hlk hlen
    rw [add_to_history, if_neg hu]
    simp only [hlk, Option.isSome_none, Bool.false_eq_true, if_false]
    rw [create_history_item]
    have hgrow : (s.history_data ++ [(request_key m u, mkEntry m u r b hs)]).length > max_items := by
      rw [List.length_append, hlen]; simp
    simp only [if_pos hgrow]
    obtain ⟨d0, Dt, hD⟩ : ∃ d0 Dt, s.history_data = d0 :: Dt := by
      match hE : s.history_data with
      | [] => rw [hE] at hlen; simp [max_items] at hlen
      | d0 :: Dt => exact ⟨d0, Dt, rfl⟩
    obtain ⟨k0, e0⟩ := d0
    rw [hD, List.cons_append, remove_oldest_item_cons, List.tail_cons]
  · intro s k r
    by_cases hsome : (lookupData s.history_data k).isSome = true
    · rw [update_history_item, if_pos hsome]
      exact ⟨updateData_map_fst _ _ _, updateData_length _ _ _⟩
    · rw [update_history_item, if_neg hsome]
      exact ⟨rfl, rfl⟩

/-- Claim C1, witness: the amended theorem applied to the concrete 20-entry cache
built by `baseCalls`, inserting `GET_u20` and updating `GET_u0`. -/
theorem C1_witness :
    (add_to_history (recordAll baseCalls) "GET" "u20" respFresh "" []).history_data
        = (recordAll baseCalls).history_data.tail
          ++ [(request_key "GET" "u20", mkEntry "GET" "u20" respFresh "" [])] ∧
    ((update_history_item (recordAll baseCalls) "GET_u0" respUpd).history_data.map Prod.fst
        = (recordAll baseCalls).history_data.map Prod.fst ∧
     (update_history_item (recordAll baseCalls) "GET_u0" respUpd).history_data.length
        = (recordAll baseCalls).history_data.length) :=
  ⟨C1_theorem.1 (recordAll baseCalls) "GET" "u20" respFresh "" []
      (by decide) (by decide) (by decide),
   C1_theorem.2 (recordAll baseCalls) "GET_u0" respUpd⟩

end Rappit

namespace Rappit

/-- Claim C2: recording distinct fingerprints A, B, C gives the ordered view
[C, B, A]; re-recording A with a new response gives [A', C, B] where A' is
A's entry holding the latest response, at rank 0; and the re-recorded
fingerprint occurs exactly once in the ordered view. -/
theorem C2_theorem (m1 u1 m2 u2 m3 u3 : String) (r1 r2 r3 r1' : Response)
    (b1 b2 b3 b1' : String) (h1 h2 h3 h1' : List (String × String))
    (hu1 : u1 ≠ "") (hu2 : u2 ≠ "") (hu3 : u3 ≠ "")
    (h12 : request_key m1 u1 ≠ request_key m2 u2)
    (h13 : request_key m1 u1 ≠ request_key m3 u3)
    (h23 : request_key m2 u2 ≠ request_key m3 u3) :
    orderedView (add_to_history (add_to_history (add_to_history
        emptyHistory m1 u1 r1 b1 h1) m2 u2 r2 b2 h2) m3 u3 r3 b3 h3)
      = [mkEntry m3 u3 r3 b3 h3, mkEntry m2 u2 r2 b2 h2, mkEntry m1 u1 r1 b1 h1] ∧
    orderedView (add_to_history (add_to_history (add_to_history (add_to_history
        emptyHistory m1 u1 r1 b1 h1) m2 u2 r2 b2 h2) m3 u3 r3 b3 h3) m1 u1 r1' b1' h1')
      = [mkEntry m1 u1 r1' b1 h1, mkEntry m3 u3 r3 b3 h3, mkEntry m2 u2 r2 b2 h2] ∧
    (orderedView (add_to_history (add_to_history (add_to_history (add_to_history
        emptyHistory m1 u1 r1 b1 h1) m2 u2 r2 b2 h2) m3 u3 r3 b3 h3) m1 u1 r1' b1' h1')).countP
        (fun e => request_key e.method e.url == request_key m1 u1) = 1 := by
  have hview3 : orderedView (add_to_history (add_to_history (add_to_history
      emptyHistory m1 u1 r1 b1 h1) m2 u2 r2 b2 h2) m3 u3 r3 b3 h3)
      = [mkEntry m3 u3 r3 b3 h3, mkEntry m2 u2 r2 b2 h2, mkEntry m1 u1 r1 b1 h1] := by
    simp [add_to_history, create_history_item, update_history_item, remove_oldest_item,
      remove_history_item, lookupData, updateData, removeData, orderedView, emptyHistory,
      max_items, hu1, hu2, hu3, h12, h13, h23, Ne.symm h12, Ne.symm h13, Ne.symm h23,
      List.erase_cons, mkEntry]
  have hview4 : orderedView (add_to_history (add_to_history (add_to_history (add_to_history
      emptyHistory m1 u1 r1 b1 h1) m2 u2 r2 b2 h2) m3 u3 r3 b3 h3) m1 u1 r1' b1' h1')
      = [mkEntry m1 u1 r1' b1 h1, mkEntry m3 u3 r3 b3 h3, mkEntry m2 u2 r2 b2 h2] := by
    simp [add_to_history, create_history_item, update_history_item, remove_oldest_item,
      remove_history_item, lookupData, updateData, removeData, orderedView, emptyHistory,
      max_items, hu1, hu2, hu3, h12, h13, h23, Ne.symm h12, Ne.symm h13, Ne.symm h23,
      List.erase_cons, mkEntry]
  refine ⟨hview3, hview4, ?_⟩
  rw [hview4]
  simp only [List.countP_cons, List.countP_nil, mkEntry]
  rw [show (request_key m2 u2 == request_key m1 u1) = false from
        beq_eq_false_iff_ne.mpr (Ne.symm h12),
      show (request_key m3 u3 == request_key m1 u1) = false from
        beq_eq_false_iff_ne.mpr (Ne.symm h13),
      beq_self_eq_true]
  simp

/-- Claim C2, witness: the theorem applied to the concrete fingerprints
`GET_a`, `GET_b`, `GET_c`. -/
theorem C2_witness :
    orderedView (add_to_history (add_to_history (add_to_history
        emptyHistory "GET" "a" respInit "" []) "GET" "b" respInit "" []) "GET" "c" respInit "" [])
      = [mkEntry "GET" "c" respInit "" [], mkEntry "GET" "b" respInit "" [],
         mkEntry "GET" "a" respInit "" []] ∧
    orderedView (add_to_history (add_to_history (add_to_history (add_to_history
        emptyHistory "GET" "a" respInit "" []) "GET" "b" respInit "" []) "GET" "c" respInit "" [])
        "GET" "a" respUpd "" [])
      = [mkEntry "GET" "a" respUpd "" [], mkEntry "GET" "c" respInit "" [],
         mkEntry "GET" "b" respInit "" []] ∧
    (orderedView (add_to_history (add_to_history (add_to_history (add_to_history
        emptyHistory "GET" "a" respInit "" []) "GET" "b" respInit "" []) "GET" "c" respInit "" [])
        "GET" "a" respUpd "" [])).countP
        (fun e => request_key e.method e.url == request_key "GET" "a") = 1 :=
  C2_theorem "GET" "a" "GET" "b" "GET" "c" respInit respInit respInit respUpd "" "" "" ""
    [] [] [] [] (by decide) (by decide) (by decide) (by decide) (by decide) (by decide)

/-- Claim C3: after recording any sequence of more than 20 pairwise distinct
fingerprints (with nonempty URLs), the ordered view has exactly 20 entries and
their fingerprints are the 20 most recently recorded ones, most recent first. -/
theorem C3_theorem (rs : List RecordCall)
    (hn : (rs.map RecordCall.key).Nodup)
    (hu : ∀ r ∈ rs, r.url ≠ "")
    (hlen : rs.length > max_items) :
    (orderedView (recordAll rs)).length = max_items ∧
    (orderedView (recordAll rs)).map (fun e => request_key e.method e.url)
      = ((rs.map RecordCall.key).drop (rs.length - max_items)).reverse := by
  obtain ⟨hd, hl⟩ := recordAll_closed_form rs hn hu
  have hkeys : ∀ m, ((rs.map entryPair).drop m).map Prod.fst
      = (rs.map RecordCall.key).drop m := by
    intro m
    rw [← List.map_drop, ← List.map_drop, List.map_map]
    rfl
  have hnodup : (((rs.map entryPair).drop (rs.length - max_items)).map Prod.fst).Nodup := by
    rw [hkeys]; exact hn.sublist (List.drop_sublist _ _)
  have hview : orderedView (recordAll rs)
      = (((rs.map entryPair).drop (rs.length - max_items)).map Prod.snd).reverse := by
    rw [orderedView, hl, hd, List.filterMap_reverse, filterMap_lookup_self _ hnodup]
  constructor
  · rw [hview, List.length_reverse, List.length_map, List.length_drop, List.length_map]
    have hm20 : max_items = 20 := rfl
    omega
  · rw [hview, List.map_reverse, List.map_map, ← List.map_drop, List.map_map, ← List.map_drop]
    rfl

/-- Claim C3, witness: the theorem applied to the concrete 21-call sequence
`calls21`. -/
theorem C3_witness :
    (orderedView (recordAll calls21)).length = max_items ∧
    (orderedView (recordAll calls21)).map (fun e => request_key e.method e.url)
      = ((calls21.map RecordCall.key).drop (calls21.length - max_items)).reverse :=
  C3_theorem calls21 (by decide) (by decide) (by decide)

/-- Claim C9: the request fingerprint is the flat string `method ++ "_" ++ url`,
which is not injective on (method, url) pairs: `GET_a`/`b` and `GET`/`a_b`
collide, so the second call updates the first call's history slot (one entry,
keeping the first call's method and url, holding the second call's response)
instead of creating a second entry. -/
theorem C9_theorem :
    (∀ m u : String, request_key m u = m ++ "_" ++ u) ∧
    request_key "GET_a" "b" = request_key "GET" "a_b" ∧
    (add_to_history (add_to_history emptyHistory "GET_a" "b" respInit "" [])
        "GET" "a_b" respUpd "" []).history_data
      = [("GET_a_b", mkEntry "GET_a" "b" respUpd "" [])] :=
  ⟨fun _ _ => rfl, rfl, by decide⟩

end Rappit

namespace Rappit

/-- Claim C5: with a JSON type hint, formatting the 19-character input with the
trailing comma inside the array triggers the repair pass, which strips the
comma, and the result is exactly the expected 2-space-indented rendering. -/
theorem C5_theorem (minidomFmt : String → Option String) :
    format_content minidomFmt "\x7b\"a\":1,\"b\":[1,2,]\x7d" (some "application/json")
      = "\x7b\n  \"a\": 1,\n  \"b\": [\n    1,\n    2\n  ]\n\x7d" := rfl

/-- Claim C6 (code bug): the content starting with an opening angle bracket, an
alphabetic tag name and then whitespace is NOT classified as XML but as plain,
because the raw-string pattern `r'^<[a-zA-Z][a-zA-Z0-9]*[>\\s]'` of `_is_xml`
makes `\\s` a literal backslash-plus-`s`, so the final character class matches
`>`, `\` or the letter `s` instead of whitespace, and a tag name followed by a
space never matches. -/
theorem C6_theorem :
    detect_kind "<note attr=\"1\"><to>x</to></note>" = Kind.plain ∧
    is_xml "<note attr=\"1\"><to>x</to></note>" = false ∧
    xmlStartMatch "<note attr=\"1\"><to>x</to></note>".data = false := by
  exact ⟨rfl, rfl, rfl⟩

/-- Claim C8, counterexample: a PLAIN input carrying leading and trailing
whitespace is returned stripped, not character-for-character unchanged --
`format_content` reassigns `content = content.strip()` before detection and
returns the stripped value. -/
theorem C8_counterexample :
    format_content (fun _ => none) "  not json or xml  " none = "not json or xml" ∧
    format_content (fun _ => none) "  not json or xml  " none ≠ "  not json or xml  " := by
  constructor
  · rfl
  · intro h
    have h2 : ("not json or xml" : String) = "  not json or xml  " := by
      rw [← h]; rfl
    simp at h2

/-- Claim C7, counterexample: the valid JSON text `"a  <div>"` (a quoted string,
so it fails `_is_json`'s brace/bracket gate) falls into the HTML branch of
`minify_content`, which collapses the double space, while `format_content`
returns it unchanged; the two results parse to different values. -/
theorem C7_counterexample :
    jsonLoads "\"a  <div>\"" = .ok (Json.str "a  <div>") ∧
    minify_content "\"a  <div>\"" none = "\"a <div>\"" ∧
    format_content (fun _ => none) "\"a  <div>\"" none = "\"a  <div>\"" ∧
    jsonLoads (minify_content "\"a  <div>\"" none) = .ok (Json.str "a <div>") ∧
    jsonLoads (format_content (fun _ => none) "\"a  <div>\"" none)
      = .ok (Json.str "a  <div>") ∧
    Json.str "a <div>" ≠ Json.str "a  <div>" := by
  refine ⟨rfl, rfl, rfl, rfl, rfl, ?_⟩
  intro h
  injection h with h2
  simp at h2

/-- Claim C4, counterexample: on `[1,,]` both the parse and the repaired parse
fail, and `format_json` returns the marker followed by the repaired content
`[1,]` -- NOT the original input `[1,,]`, which is no suffix of the result. -/
theorem C4_counterexample :
    jsonLoads "[1,,]" = .error "Expecting value" ∧
    jsonLoads (String.mk (repairJson "[1,,]".data)) = .error "Expecting value" ∧
    format_json "[1,,]" = "/* JSON Format Error: Expecting value */\n[1,]" ∧
    "[1,,]".data.isSuffixOf (format_json "[1,,]").data = false := by
  exact ⟨rfl, rfl, rfl, by decide⟩

end Rappit

namespace Rappit

theorem natDigsAux_head (fuel : Nat) : ∀ (n : Nat) (acc : List Char), n < fuel →
    ∃ k, k < 10 ∧ ∃ t, natDigsAux fuel n acc = digitChar k :: t := by
  induction fuel with
  | zero => intro n acc h; omega
  | succ f ih =>
    intro n acc h
    by_cases h10 : n < 10
    · exact ⟨n, h10, acc, by simp [natDigsAux, h10]⟩
    · have hlt : n / 10 < f := by omega
      obtain ⟨k, hk, t, ht⟩ := ih (n / 10) (digitChar (n % 10) :: acc) hlt
      exact ⟨k, hk, t, by simp [natDigsAux, h10, ht]⟩

theorem natChars_head (n : Nat) :
    ∃ k, k < 10 ∧ ∃ t, natChars n = digitChar k :: t :=
  natDigsAux_head (n + 1) n [] (Nat.lt_succ_self n)

theorem serP_head (v : Json) (lvl : Nat) :
    ∃ c t, serP v lvl = c :: t ∧ c ≠ '/' := by
  cases v with
  | null => exact ⟨'n', _, rfl, by decide⟩
  | bool b =>
    cases b with
    | false => exact ⟨'f', _, rfl, by decide⟩
    | true => exact ⟨'t', _, rfl, by decide⟩
  | num n =>
    by_cases hneg : n < 0
    · exact ⟨'-', natChars n.natAbs, by simp [serP, intChars, hneg], by decide⟩
    · obtain ⟨k, hk, t, ht⟩ := natChars_head n.toNat
      refine ⟨digitChar k, t, by simp [serP, intChars, hneg, ht], ?_⟩
      have hall : ∀ m, m < 10 → digitChar m ≠ '/' := by decide
      exact hall k hk
  | str s => exact ⟨'"', _, rfl, by decide⟩
  | arr xs =>
    cases xs with
    | nil => exact ⟨'[', _, rfl, by decide⟩
    | cons x t => exact ⟨'[', _, rfl, by decide⟩
  | obj kvs =>
    cases kvs with
    | nil => exact ⟨'\x7b', _, rfl, by decide⟩
    | cons k v t => exact ⟨'\x7b', _, rfl, by decide⟩

theorem marker_isPrefixOf_marker_colon (s : String) :
    "/* JSON Format Error".data.isPrefixOf ("/* JSON Format Error: " ++ s).data = true := by
  rw [String.data_append, List.isPrefixOf_iff_prefix]
  exact List.IsPrefix.trans (by decide) (List.prefix_append _ _)

/-- Claim C4, amended: when JSON formatting fails even after the trailing-comma
repair pass, `format_json` returns the repair-pass output (the input with
trailing commas before closing braces or brackets stripped), prefixed with the
JSON error marker embedding the first parse error; it never raises (it is a
total function); and the marker prefix is present if and only if both parse
attempts failed, so a caller can detect failure solely from that prefix. -/
theorem C4_theorem :
    (∀ (content e : String), jsonLoads content = .error e →
        (∀ v, jsonLoads (String.mk (repairJson content.data)) ≠ .ok v) →
        format_json content
          = "/* JSON Format Error: " ++ e ++ " */\n" ++ String.mk (repairJson content.data)) ∧
    (∀ content : String,
        "/* JSON Format Error".data.isPrefixOf (format_json content).data = true
          ↔ (∃ e, jsonLoads content = .error e)
            ∧ ∃ e, jsonLoads (String.mk (repairJson content.data)) = .error e) := by
  constructor
  · intro content e h herr
    cases hrep : jsonLoads (String.mk (repairJson content.data)) with
    | ok v => exact absurd hrep (herr v)
    | error e2 => simp only [format_json, h, hrep]
  · intro content
    constructor
    · intro hpre
      cases hok : jsonLoads content with
      | ok v =>
        exfalso
        have hfj : format_json content = dumpsPretty v := by simp only [format_json, hok]
        rw [hfj] at hpre
        obtain ⟨c, t, hser, hc⟩ := serP_head v 0
        have hdata : (dumpsPretty v).data = c :: t := by
          show (String.mk (serP v 0)).data = c :: t
          rw [hser]
        rw [hdata] at hpre
        simp [List.isPrefixOf] at hpre
        exact hc hpre.1.symm
      | error e =>
        cases hrep : jsonLoads (String.mk (repairJson content.data)) with
        | ok v =>
          exfalso
          have hfj : format_json content = dumpsPretty v := by simp only [format_json, hok, hrep]
          rw [hfj] at hpre
          obtain ⟨c, t, hser, hc⟩ := serP_head v 0
          have hdata : (dumpsPretty v).data = c :: t := by
            show (String.mk (serP v 0)).data = c :: t
            rw [hser]
          rw [hdata] at hpre
          simp [List.isPrefixOf] at hpre
          exact hc hpre.1.symm
        | error e2 => exact ⟨⟨e, rfl⟩, ⟨e2, rfl⟩⟩
    · rintro ⟨⟨e, he⟩, ⟨e2, he2⟩⟩
      simp only [format_json, he, he2]
      have hassoc : "/* JSON Format Error: " ++ e ++ " */\n" ++ String.mk (repairJson content.data)
          = "/* JSON Format Error: " ++ (e ++ " */\n" ++ String.mk (repairJson content.data)) := by
        simp [String.append_assoc]
      rw [hassoc]
      exact marker_isPrefixOf_marker_colon _

/-- Claim C4, witness: the amended theorem applied to the failing input `[1,,]`. -/
theorem C4_witness :
    format_json "[1,,]"
        = "/* JSON Format Error: " ++ "Expecting value" ++ " */\n"
          ++ String.mk (repairJson "[1,,]".data) ∧
    ("/* JSON Format Error".data.isPrefixOf (format_json "[1,,]").data = true
      ↔ (∃ e, jsonLoads "[1,,]" = .error e)
        ∧ ∃ e, jsonLoads (String.mk (repairJson "[1,,]".data)) = .error e) :=
  ⟨C4_theorem.1 "[1,,]" "Expecting value" rfl (fun v h => Except.noConfusion h),
   C4_theorem.2 "[1,,]"⟩

end Rappit

namespace Rappit

theorem xmlStep_cases (st : Int × List (List Char)) (a : List Char) (h0 : 0 ≤ st.1) :
    0 ≤ (xmlStep st a).1 ∧
    ((xmlStep st a).2 = st.2 ∨
      ∃ k : Nat, (xmlStep st a).2 = st.2 ++ [List.replicate (2 * k) ' ' ++ pyStripL a]) := by
  simp only [xmlStep]
  split_ifs <;>
    refine ⟨by omega, ?_⟩
  · exact Or.inl rfl
  · exact Or.inr ⟨0, rfl⟩
  · exact Or.inr ⟨(max 0 (st.1 - 1)).toNat, rfl⟩
  · exact Or.inr ⟨st.1.toNat, rfl⟩
  · exact Or.inr ⟨st.1.toNat, rfl⟩
  · exact Or.inr ⟨st.1.toNat, rfl⟩
  · exact Or.inr ⟨st.1.toNat, rfl⟩

end Rappit

namespace Rappit

theorem htmlStep_cases (st : Int × List (List Char)) (a : List Char) (h0 : 0 ≤ st.1) :
    0 ≤ (htmlStep st a).1 ∧
    ((htmlStep st a).2 = st.2 ∨
      ∃ k : Nat, (htmlStep st a).2 = st.2 ++ [List.replicate (2 * k) ' ' ++ pyStripL a]) := by
  simp only [htmlStep]
  split_ifs
  · exact ⟨by omega, Or.inl rfl⟩
  · exact ⟨by omega, Or.inr ⟨0, rfl⟩⟩
  · exact ⟨by omega, Or.inr ⟨st.1.toNat, rfl⟩⟩
  · exact ⟨by omega, Or.inr ⟨(max 0 (st.1 - 1)).toNat, rfl⟩⟩
  · exact ⟨by omega, Or.inr ⟨st.1.toNat, rfl⟩⟩
  · rcases htag : extractTagName (pyStripL a) with _ | nm
    · simp only [htag]
      exact ⟨by omega, Or.inr ⟨st.1.toNat, rfl⟩⟩
    · simp only [htag]
      split_ifs
      · exact ⟨by omega, Or.inr ⟨st.1.toNat, rfl⟩⟩
      · exact ⟨by omega, Or.inr ⟨st.1.toNat, rfl⟩⟩
      · exact ⟨by omega, Or.inr ⟨st.1.toNat, rfl⟩⟩
  · exact ⟨by omega, Or.inr ⟨st.1.toNat, rfl⟩⟩

end Rappit

namespace Rappit

theorem fold_indenter_shape
    (step : Int × List (List Char) → List Char → Int × List (List Char))
    (hstep : ∀ st a, 0 ≤ st.1 → 0 ≤ (step st a).1 ∧
      ((step st a).2 = st.2 ∨
        ∃ k : Nat, (step st a).2 = st.2 ++ [List.replicate (2 * k) ' ' ++ pyStripL a])) :
    ∀ (lines : List (List Char)) (st : Int × List (List Char)), 0 ≤ st.1 →
      0 ≤ (lines.foldl step st).1 ∧
      ∀ o ∈ (lines.foldl step st).2,
        o ∈ st.2 ∨ ∃ (k : Nat) (src : List Char), src ∈ lines ∧
          o = List.replicate (2 * k) ' ' ++ pyStripL src := by
  intro lines
  induction lines with
  | nil => exact fun st h => ⟨h, fun o ho => Or.inl ho⟩
  | cons a t ih =>
    intro st h
    rw [List.foldl_cons]
    obtain ⟨hl1, hl2⟩ := hstep st a h
    obtain ⟨hf1, hf2⟩ := ih (step st a) hl1
    refine ⟨hf1, ?_⟩
    intro o ho
    rcases hf2 o ho with hmem | ⟨k, src, hsrc, heq⟩
    · rcases hl2 with he | ⟨k, he⟩
      · rw [he] at hmem
        exact Or.inl hmem
      · rw [he] at hmem
        rcases List.mem_append.mp hmem with hl | hr
        · exact Or.inl hl
        · rw [List.mem_singleton] at hr
          exact Or.inr ⟨k, a, List.mem_cons_self a t, hr⟩
    · exact Or.inr ⟨k, src, List.mem_cons_of_mem _ hsrc, heq⟩

/-- Claim C10: both manual indenters are total functions whose internal indent
counter stays non-negative from any non-negative start (closing tags decrement
through `max 0 (level - 1)`), and every emitted line is a whole number of
2-space indent units followed by a stripped input line. -/
theorem C10_theorem :
    (∀ (content : String), ∀ o ∈ simple_xml_format_lines content,
        ∃ (k : Nat) (src : List Char), src ∈ splitNlL (insertBreaks content.data) ∧
          o = List.replicate (2 * k) ' ' ++ pyStripL src) ∧
    (∀ (lines : List (List Char)) (lvl : Int), 0 ≤ lvl →
        0 ≤ (lines.foldl xmlStep (lvl, ([] : List (List Char)))).1) ∧
    (∀ (content : String), ∀ o ∈ simple_html_format_lines content,
        ∃ (k : Nat) (src : List Char), src ∈ splitNlL (insertBreaks content.data) ∧
          o = List.replicate (2 * k) ' ' ++ pyStripL src) ∧
    (∀ (lines : List (List Char)) (lvl : Int), 0 ≤ lvl →
        0 ≤ (lines.foldl htmlStep (lvl, ([] : List (List Char)))).1) := by
  refine ⟨?_, ?_, ?_, ?_⟩
  · intro content o ho
    have := (fold_indenter_shape xmlStep xmlStep_cases
      (splitNlL (insertBreaks content.data)) ((0 : Int), []) (by simp)).2 o ho
    rcases this with hmem | hout
    · simp at hmem
    · exact hout
  · intro lines lvl h
    exact (fold_indenter_shape xmlStep xmlStep_cases lines (lvl, []) h).1
  · intro content o ho
    have := (fold_indenter_shape htmlStep htmlStep_cases
      (splitNlL (insertBreaks content.data)) ((0 : Int), []) (by simp)).2 o ho
    rcases this with hmem | hout
    · simp at hmem
    · exact hout
  · intro lines lvl h
    exact (fold_indenter_shape htmlStep htmlStep_cases lines (lvl, []) h).1

/-- Claim C10, witness: the theorem applied to concrete XML and HTML inputs and
one concrete emitted line of each, and to a line list headed by an excess
closing tag. -/
theorem C10_witness :
    (∃ (k : Nat) (src : List Char), src ∈ splitNlL (insertBreaks "<a><b/></a>".data) ∧
        "  <b/>".data = List.replicate (2 * k) ' ' ++ pyStripL src) ∧
    0 ≤ (["</x>".data].foldl xmlStep ((0 : Int), ([] : List (List Char)))).1 ∧
    (∃ (k : Nat) (src : List Char), src ∈ splitNlL (insertBreaks "<div><p>t</p></div>".data) ∧
        "  <p>t</p>".data = List.replicate (2 * k) ' ' ++ pyStripL src) ∧
    0 ≤ (["</x>".data].foldl htmlStep ((0 : Int), ([] : List (List Char)))).1 :=
  ⟨C10_theorem.1 "<a><b/></a>" "  <b/>".data (by decide),
   C10_theorem.2.1 ["</x>".data] 0 (by decide),
   C10_theorem.2.2.1 "<div><p>t</p></div>" "  <p>t</p>".data (by decide),
   C10_theorem.2.2.2 ["</x>".data] 0 (by decide)⟩

end Rappit

namespace Rappit

/-- Claim C8, amended: for every input classified as PLAIN, `format_content`
returns the whitespace-stripped input; empty or whitespace-only input is
returned unchanged (the early return fires before stripping). -/
theorem C8_theorem :
    (∀ (minidomFmt : String → Option String) (content : String),
        pyStrip content = "" → format_content minidomFmt content none = content) ∧
    (∀ (minidomFmt : String → Option String) (content : String),
        pyStrip content ≠ "" →
        is_json (pyStrip content) = false →
        is_xml (pyStrip content) = false →
        is_html (pyStrip content) = false →
        format_content minidomFmt content none = pyStrip content) := by
  constructor
  · intro md content h
    rw [format_content, if_pos (Or.inr h)]
  · intro md content hne hj hx hh
    have hc : ¬ (content = "" ∨ pyStrip content = "") := by
      rintro (h | h)
      · exact hne (by rw [h]; rfl)
      · exact hne h
    rw [format_content, if_neg hc]
    simp only [hj, hx, hh, Bool.false_eq_true, if_false]

/-- Claim C8, witness: the amended theorem applied to a whitespace-only input
and to concrete plain text with surrounding whitespace. -/
theorem C8_witness :
    format_content (fun _ => none) "   " none = "   " ∧
    format_content (fun _ => none) "  plain text here  " none
      = pyStrip "  plain text here  " :=
  ⟨C8_theorem.1 (fun _ => none) "   " (by decide),
   C8_theorem.2 (fun _ => none) "  plain text here  " (by decide) (by decide) (by decide)
     (by decide)⟩

end Rappit

namespace Rappit

theorem natDigsAux_eq_natChars_append :
    ∀ n : Nat, ∀ (fuel : Nat) (acc : List Char), n < fuel →
      natDigsAux fuel n acc = natChars n ++ acc := by
  intro n
  induction n using Nat.strong_induction_on with
  | _ n ih =>
    intro fuel acc hf
    match fuel, hf with
    | fuel + 1, hf =>
      by_cases h10 : n < 10
      · simp [natDigsAux, natChars, h10]
      · have hd : n / 10 < n := Nat.div_lt_self (by omega) (by omega)
        have h1 : n / 10 < fuel := by omega
        rw [natDigsAux]
        simp only [h10, if_false]
        rw [ih (n / 10) hd fuel _ h1]
        have hnc : natChars n = natChars (n / 10) ++ [digitChar (n % 10)] := by
          rw [natChars]
          rw [natDigsAux]
          simp only [h10, if_false]
          rw [ih (n / 10) hd n _ (by omega)]
        rw [hnc, List.append_assoc]
        rfl

theorem natChars_ten (n : Nat) (h10 : ¬ n < 10) :
    natChars n = natChars (n / 10) ++ [digitChar (n % 10)] := by
  rw [natChars, natDigsAux]
  simp only [h10, if_false]
  have hd : n / 10 < n := Nat.div_lt_self (by omega) (by omega)
  rw [natDigsAux_eq_natChars_append (n / 10) n _ (by omega)]

theorem natChars_digits : ∀ n : Nat, ∀ c ∈ natChars n, isDigitC c = true := by
  intro n
  induction n using Nat.strong_induction_on with
  | _ n ih =>
    intro c hc
    by_cases h10 : n < 10
    · rw [show natChars n = [digitChar n] by simp [natChars, natDigsAux, h10]] at hc
      rw [List.mem_singleton] at hc
      subst hc
      have hall : ∀ m, m < 10 → isDigitC (digitChar m) = true := by decide
      exact hall n h10
    · rw [natChars_ten n h10] at hc
      rcases List.mem_append.mp hc with hl | hr
      · exact ih (n / 10) (Nat.div_lt_self (by omega) (by omega)) c hl
      · rw [List.mem_singleton] at hr
        subst hr
        have hall : ∀ m, m < 10 → isDigitC (digitChar m) = true := by decide
        exact hall (n % 10) (Nat.mod_lt n (by omega))

theorem natChars_head_pos : ∀ n : Nat, 0 < n →
    ∃ k t, 0 < k ∧ k < 10 ∧ natChars n = digitChar k :: t := by
  intro n
  induction n using Nat.strong_induction_on with
  | _ n ih =>
    intro hpos
    by_cases h10 : n < 10
    · exact ⟨n, [], hpos, h10, by simp [natChars, natDigsAux, h10]⟩
    · obtain ⟨k, t, hk0, hk10, ht⟩ :=
        ih (n / 10) (Nat.div_lt_self (by omega) (by omega)) (by omega)
      exact ⟨k, t ++ [digitChar (n % 10)], hk0, hk10, by
        rw [natChars_ten n h10, ht]
        rfl⟩

theorem digitsToNat_append (l1 l2 : List Char) :
    ∀ a, digitsToNat (l1 ++ l2) a = digitsToNat l2 (digitsToNat l1 a) := by
  induction l1 with
  | nil => intro a; rfl
  | cons c t ih =>
    intro a
    simp only [List.cons_append, digitsToNat]
    exact ih _

theorem digitsToNat_natChars : ∀ n : Nat, ∀ a,
    digitsToNat (natChars n) a = a * 10 ^ (natChars n).length + n := by
  intro n
  induction n using Nat.strong_induction_on with
  | _ n ih =>
    intro a
    by_cases h10 : n < 10
    · rw [show natChars n = [digitChar n] by simp [natChars, natDigsAux, h10]]
      have htn : ∀ m, m < 10 → (digitChar m).toNat = 48 + m := by decide
      simp only [digitsToNat, List.length_singleton, pow_one, htn n h10]
      omega
    · have hd : n / 10 < n := Nat.div_lt_self (by omega) (by omega)
      rw [natChars_ten n h10, digitsToNat_append, ih (n / 10) hd a]
      have htn : (digitChar (n % 10)).toNat = 48 + n % 10 := by
        have hall : ∀ m, m < 10 → (digitChar m).toNat = 48 + m := by decide
        exact hall _ (Nat.mod_lt n (by omega))
      simp only [digitsToNat, htn, List.length_append, List.length_singleton, pow_succ]
      rw [← Nat.mul_assoc]
      generalize a * 10 ^ (natChars (n / 10)).length = Q
      omega

end Rappit

namespace Rappit

theorem takeDigits_append (ds : List Char) (rest : List Char)
    (hds : ∀ c ∈ ds, isDigitC c = true)
    (hrest : ∀ c t, rest = c :: t → isDigitC c = false) :
    takeDigits (ds ++ rest) = (ds, rest) := by
  induction ds with
  | nil =>
    match rest, hrest with
    | [], _ => rfl
    | c :: t, hrest =>
      simp only [List.nil_append, takeDigits, hrest c t rfl, Bool.false_eq_true, if_false]
  | cons c t ih =>
    have hc : isDigitC c = true := hds c (by simp)
    simp only [List.cons_append, takeDigits, hc, if_true, List.append_eq,
      ih (fun x hx => hds x (by simp [hx]))]

theorem parseIntPart_natChars (n : Nat) (rest : List Char)
    (hrest : ∀ c t, rest = c :: t → isDigitC c = false) :
    parseIntPart (natChars n ++ rest) = .ok (n, rest) := by
  by_cases hz : n = 0
  · subst hz
    rfl
  · obtain ⟨k, t, hk0, hk10, ht⟩ := natChars_head_pos n (by omega)
    have hkd : isDigitC (digitChar k) = true := by
      have hall : ∀ m, m < 10 → isDigitC (digitChar m) = true := by decide
      exact hall k hk10
    have hkz : ¬ digitChar k = '0' := by
      have hall : ∀ m, m < 10 → 0 < m → ¬ digitChar m = '0' := by decide
      exact hall k hk10 hk0
    have hdigits : ∀ c ∈ t, isDigitC c = true := by
      intro c hc
      exact natChars_digits n c (by rw [ht]; simp [hc])
    rw [ht, List.cons_append, parseIntPart]
    simp only [hkz, hkd, if_true, if_false]
    rw [takeDigits_append t rest hdigits hrest]
    have hval := digitsToNat_natChars n 0
    rw [ht] at hval
    simp only [digitsToNat, Nat.zero_mul, Nat.zero_add, Nat.zero_mul] at hval
    simp only [hval]
end Rappit

namespace Rappit

theorem numSafe_props (rest : List Char) (h : numSafe rest = true) :
    (∀ c t, rest = c :: t → isDigitC c = false) ∧ floatFollows rest = false := by
  match rest with
  | [] => exact ⟨fun c t hct => by simp at hct, rfl⟩
  | c :: t =>
    simp only [numSafe, Bool.not_eq_true', Bool.or_eq_false_iff,
      decide_eq_false_iff_not] at h
    obtain ⟨⟨⟨h1, h2⟩, h3⟩, h4⟩ := h
    refine ⟨fun c' t' hct => by cases hct; exact h1, ?_⟩
    simp [floatFollows, h2, h3, h4]

theorem parseNum_intChars (n : Int) (rest : List Char) (hsafe : numSafe rest = true) :
    parseNum (intChars n ++ rest) = .ok (.num n, rest) := by
  obtain ⟨hnd, hff⟩ := numSafe_props rest hsafe
  by_cases hneg : n < 0
  · rw [show intChars n = '-' :: natChars n.natAbs by simp [intChars, hneg]]
    rw [List.cons_append, parseNum]
    rw [parseIntPart_natChars n.natAbs rest hnd]
    simp only [hff, Bool.false_eq_true, if_false]
    rw [show -(n.natAbs : Int) = n by omega]
  · rw [show intChars n = natChars n.toNat by simp [intChars, hneg]]
    obtain ⟨k, hk10, t, ht⟩ := natChars_head n.toNat
    have hknm : ¬ digitChar k = '-' := by
      have hall : ∀ m, m < 10 → ¬ digitChar m = '-' := by decide
      exact hall k hk10
    have hexp : natChars n.toNat ++ rest = digitChar k :: (t ++ rest) := by
      rw [ht]; rfl
    rw [hexp, parseNum]
    · rw [← List.cons_append, ← ht, parseIntPart_natChars n.toNat rest hnd]
      simp only [hff, Bool.false_eq_true, if_false]
      rw [show ((n.toNat : Int)) = n by omega]
    · intro r hr
      injection hr with h1 h2
      exact hknm h1

end Rappit

namespace Rappit

theorem hexVal_hexDigitChar : ∀ m, m < 16 → hexVal (hexDigitChar m) = some m := by decide

theorem escList_cons_plain (c : Char) (t : List Char)
    (h1 : ¬ c = '"') (h2 : ¬ c = '\\') (h8 : ¬ c.toNat < 32) :
    escList (c :: t) = c :: escList t := by
  have hb : ¬ c = '\x08' := fun h => h8 (by rw [h]; decide)
  have hf : ¬ c = '\x0c' := fun h => h8 (by rw [h]; decide)
  have hn : ¬ c = '\n' := fun h => h8 (by rw [h]; decide)
  have hr : ¬ c = '\r' := fun h => h8 (by rw [h]; decide)
  have ht : ¬ c = '\t' := fun h => h8 (by rw [h]; decide)
  simp [escList, escapeChar, h1, h2, hb, hf, hn, hr, ht, h8]

theorem parseStrAux_escList : ∀ (cs : List Char), ∀ (fuel : Nat), cs.length < fuel →
    ∀ (rest : List Char),
      parseStrAux fuel (escList cs ++ '"' :: rest) = .ok (cs, rest) := by
  intro cs
  induction cs with
  | nil =>
    intro fuel hf rest
    match fuel, hf with
    | fuel + 1, _ => rfl
  | cons c t ih =>
    intro fuel hf rest
    match fuel, hf with
    | fuel + 1, hf =>
      have hlt : t.length < fuel := by
        simp only [List.length_cons] at hf
        omega
      by_cases h1 : c = '"'
      · subst h1
        rw [show escList ('"' :: t) ++ '"' :: rest
            = '\\' :: '"' :: (escList t ++ '"' :: rest) by simp [escList, escapeChar]]
        simp [parseStrAux, escDecode, ih fuel hlt rest]
      · by_cases h2 : c = '\\'
        · subst h2
          rw [show escList ('\\' :: t) ++ '"' :: rest
              = '\\' :: '\\' :: (escList t ++ '"' :: rest) by simp [escList, escapeChar]]
          simp [parseStrAux, escDecode, ih fuel hlt rest]
        · by_cases h3 : c = '\x08'
          · subst h3
            rw [show escList ('\x08' :: t) ++ '"' :: rest
                = '\\' :: 'b' :: (escList t ++ '"' :: rest) by simp [escList, escapeChar]]
            simp [parseStrAux, escDecode, ih fuel hlt rest]
          · by_cases h4 : c = '\x0c'
            · subst h4
              rw [show escList ('\x0c' :: t) ++ '"' :: rest
                  = '\\' :: 'f' :: (escList t ++ '"' :: rest) by simp [escList, escapeChar]]
              simp [parseStrAux, escDecode, ih fuel hlt rest]
            · by_cases h5 : c = '\n'
              · subst h5
                rw [show escList ('\n' :: t) ++ '"' :: rest
                    = '\\' :: 'n' :: (escList t ++ '"' :: rest) by simp [escList, escapeChar]]
                simp [parseStrAux, escDecode, ih fuel hlt rest]
              · by_cases h6 : c = '\r'
                · subst h6
                  rw [show escList ('\r' :: t) ++ '"' :: rest
                      = '\\' :: 'r' :: (escList t ++ '"' :: rest) by simp [escList, escapeChar]]
                  simp [parseStrAux, escDecode, ih fuel hlt rest]
                · by_cases h7 : c = '\t'
                  · subst h7
                    rw [show escList ('\t' :: t) ++ '"' :: rest
                        = '\\' :: 't' :: (escList t ++ '"' :: rest) by simp [escList, escapeChar]]
                    simp [parseStrAux, escDecode, ih fuel hlt rest]
                  · by_cases h8 : c.toNat < 32
                    · rw [show escList (c :: t) ++ '"' :: rest
                          = '\\' :: 'u' :: '0' :: '0' :: hexDigitChar (c.toNat / 16)
                            :: hexDigitChar (c.toNat % 16) :: (escList t ++ '"' :: rest) by
                        simp [escList, escapeChar, h1, h2, h3, h4, h5, h6, h7, h8]]
                      have hv1 := hexVal_hexDigitChar (c.toNat / 16) (by omega)
                      have hv2 := hexVal_hexDigitChar (c.toNat % 16) (by omega)
                      have hcode : ((0 * 16 + 0) * 16 + c.toNat / 16) * 16 + c.toNat % 16
                          = c.toNat := by omega
                      have hvalid : Nat.isValidChar c.toNat := Or.inl (by omega)
                      simp only [parseStrAux, hex4, show hexVal '0' = some 0 from rfl, hv1, hv2, hcode]
                      simp [hvalid, ih fuel hlt rest, Char.ofNat_toNat]
                    · rw [escList_cons_plain c t h1 h2 h8, List.cons_append]
                      simp [parseStrAux, h1, h2, h8, ih fuel hlt rest]

end Rappit

namespace Rappit

theorem skipWs_cons_not (c : Char) (l : List Char) (h : jsonWs c = false) :
    skipWs (c :: l) = c :: l := by
  simp [skipWs, h]

theorem skipWs_cons_ws (c : Char) (l : List Char) (h : jsonWs c = true) :
    skipWs (c :: l) = skipWs l := by
  simp [skipWs, h]

theorem skipWs_ws_append (W : List Char) (l : List Char)
    (h : ∀ c ∈ W, jsonWs c = true) : skipWs (W ++ l) = skipWs l := by
  induction W with
  | nil => rfl
  | cons c t ih =>
    rw [List.cons_append, skipWs_cons_ws c _ (h c (by simp)),
      ih (fun x hx => h x (by simp [hx]))]

theorem indK_ws : ∀ (k : Nat), ∀ c ∈ indK k, jsonWs c = true := by
  intro k c hc
  rw [indK] at hc
  rw [List.eq_of_mem_replicate hc]
  rfl

theorem skipWs_idem (l : List Char) : skipWs (skipWs l) = skipWs l := by
  induction l with
  | nil => rfl
  | cons c t ih =>
    by_cases h : jsonWs c = true
    · rw [skipWs_cons_ws c t h, ih]
    · rw [skipWs_cons_not c t (by simpa using h), skipWs_cons_not c t (by simpa using h)]

theorem parseVal_skipWs (fuel : Nat) (l : List Char) :
    parseVal fuel (skipWs l) = parseVal fuel l := by
  match fuel with
  | 0 => rfl
  | fuel + 1 =>
    show parseVal (fuel + 1) (skipWs l) = parseVal (fuel + 1) l
    rw [parseVal, parseVal, skipWs_idem]

theorem escapeChar_length (c : Char) : 1 ≤ (escapeChar c).length := by
  rw [escapeChar]
  split_ifs <;> simp

theorem escList_length (cs : List Char) : cs.length ≤ (escList cs).length := by
  induction cs with
  | nil => simp [escList]
  | cons c t ih =>
    rw [escList, List.length_append, List.length_cons]
    have := escapeChar_length c
    omega

theorem intChars_head (n : Int) :
    ∃ c t, intChars n = c :: t ∧ (c = '-' ∨ ∃ k, k < 10 ∧ c = digitChar k) := by
  rw [intChars]
  by_cases hneg : n < 0
  · exact ⟨'-', natChars n.natAbs, by simp [hneg], Or.inl rfl⟩
  · obtain ⟨k, hk, t, ht⟩ := natChars_head n.toNat
    exact ⟨digitChar k, t, by simp [hneg, ht], Or.inr ⟨k, hk, rfl⟩⟩

theorem serC_head (v : Json) :
    ∃ c t, serC v = c :: t ∧ jsonWs c = false ∧ ¬ c = ']' := by
  cases v with
  | null => exact ⟨'n', _, rfl, rfl, by decide⟩
  | bool b =>
    cases b with
    | false => exact ⟨'f', _, rfl, rfl, by decide⟩
    | true => exact ⟨'t', _, rfl, rfl, by decide⟩
  | num n =>
    obtain ⟨c, t, hct, hc⟩ := intChars_head n
    refine ⟨c, t, hct, ?_, ?_⟩
    · rcases hc with h | ⟨k, hk, h⟩
      · rw [h]; rfl
      · rw [h]
        have hall : ∀ m, m < 10 → jsonWs (digitChar m) = false := by decide
        exact hall k hk
    · rcases hc with h | ⟨k, hk, h⟩
      · rw [h]; decide
      · rw [h]
        have hall : ∀ m, m < 10 → ¬ digitChar m = ']' := by decide
        exact hall k hk
  | str s => exact ⟨'"', _, rfl, rfl, by decide⟩
  | arr xs =>
    cases xs with
    | nil => exact ⟨'[', _, rfl, rfl, by decide⟩
    | cons x t => exact ⟨'[', _, rfl, rfl, by decide⟩
  | obj kvs =>
    cases kvs with
    | nil => exact ⟨'\x7b', _, rfl, rfl, by decide⟩
    | cons k v t => exact ⟨'\x7b', _, rfl, rfl, by decide⟩

theorem numSafe_serCItems (xs : JsonArr) (rest : List Char) :
    numSafe (serCItems xs ++ ']' :: rest) = true := by
  cases xs with
  | nil => rfl
  | cons x t => rfl

theorem numSafe_serCMembers (ms : JsonObj) (rest : List Char) :
    numSafe (serCMembers ms ++ '\x7d' :: rest) = true := by
  cases ms with
  | nil => rfl
  | cons k v t => rfl

theorem jsize_one_le (v : Json) : 1 ≤ jsize v := by
  cases v <;> simp [jsize]

theorem jsizeArr_one_le (xs : JsonArr) : 1 ≤ jsizeArr xs := by
  cases xs with
  | nil => simp [jsizeArr]
  | cons x t =>
    have := jsize_one_le x
    simp [jsizeArr]
    omega

theorem jsizeObj_one_le (kvs : JsonObj) : 1 ≤ jsizeObj kvs := by
  cases kvs with
  | nil => simp [jsizeObj]
  | cons k v t =>
    have := jsize_one_le v
    simp [jsizeObj]
    omega

end Rappit

namespace Rappit

theorem roundC : ∀ fuel : Nat,
    (∀ (v : Json) (rest : List Char), jsize v ≤ fuel → numSafe rest = true →
      parseVal fuel (serC v ++ rest) = .ok (v, rest)) ∧
    (∀ (xs : JsonArr) (rest : List Char), jsizeArr xs ≤ fuel →
      parseArrRest fuel (serCItems xs ++ ']' :: rest) = .ok (xs, rest)) ∧
    (∀ (kvs : JsonObj) (rest : List Char), jsizeObj kvs ≤ fuel →
      parseObjRest fuel (serCMembers kvs ++ '\x7d' :: rest) = .ok (kvs, rest)) := by
  intro fuel
  induction fuel with
  | zero =>
    refine ⟨fun v rest hs _ => ?_, fun xs rest hs => ?_, fun kvs rest hs => ?_⟩
    · have := jsize_one_le v; omega
    · have := jsizeArr_one_le xs; omega
    · have := jsizeObj_one_le kvs; omega
  | succ fuel ih =>
    obtain ⟨ih1, ih2, ih3⟩ := ih
    refine ⟨?_, ?_, ?_⟩
    · intro v rest hs hsafe
      cases v with
      | null => rfl
      | bool b => cases b with | false => rfl | true => rfl
      | num n =>
        obtain ⟨c, t, hct, hc⟩ := intChars_head n
        have hfacts : jsonWs c = false ∧ ¬ c = 'n' ∧ ¬ c = 't' ∧ ¬ c = 'f' ∧ ¬ c = '"'
            ∧ ¬ c = '[' ∧ ¬ c = '\x7b' ∧ (c = '-' || isDigitC c) = true := by
          rcases hc with h | ⟨k, hk, h⟩
          · subst h
            exact ⟨rfl, by decide, by decide, by decide, by decide, by decide, by decide, rfl⟩
          · subst h
            have hall : ∀ m, m < 10 → jsonWs (digitChar m) = false ∧ ¬ digitChar m = 'n'
                ∧ ¬ digitChar m = 't' ∧ ¬ digitChar m = 'f' ∧ ¬ digitChar m = '"'
                ∧ ¬ digitChar m = '[' ∧ ¬ digitChar m = '\x7b'
                ∧ (digitChar m = '-' || isDigitC (digitChar m)) = true := by decide
            exact hall k hk
        obtain ⟨hws, hn2, ht2, hf2, hq2, hbr2, hob2, hnum2⟩ := hfacts
        show parseVal (fuel + 1) (intChars n ++ rest) = .ok (.num n, rest)
        rw [hct, List.cons_append, parseVal, skipWs_cons_not c _ hws]
        simp only [if_neg hn2, if_neg ht2, if_neg hf2, if_neg hq2, if_neg hbr2,
          if_neg hob2, hnum2, if_true]
        rw [← List.cons_append, ← hct]
        exact parseNum_intChars n rest hsafe
      | str s =>
        have hexp : serC (.str s) ++ rest = '"' :: (escList s.data ++ '"' :: rest) := by
          show ('"' :: escList s.data ++ ['"']) ++ rest = _
          simp
        show parseVal (fuel + 1) (serC (.str s) ++ rest) = .ok (.str s, rest)
        rw [hexp, parseVal, skipWs_cons_not '"' _ (by decide)]
        have hlen : s.data.length < (escList s.data ++ '"' :: rest).length + 1 := by
          have := escList_length s.data
          rw [List.length_append]
          omega
        simp only [show ¬ ('"' = 'n') by decide, show ¬ ('"' = 't') by decide,
          show ¬ ('"' = 'f') by decide, if_neg, if_false, if_pos, if_true]
        rw [parseStrAux_escList s.data _ hlen rest]
      | arr xs =>
        cases xs with
        | nil => rfl
        | cons x xs' =>
          have hsz : jsize (Json.arr (JsonArr.cons x xs')) = 1 + (jsize x + 1 + jsizeArr xs') := by
            simp [jsize, jsizeArr]
          have hx : jsize x ≤ fuel := by
            have := jsizeArr_one_le xs'
            omega
          have hxs : jsizeArr xs' ≤ fuel := by
            have := jsize_one_le x
            omega
          obtain ⟨c, t, hct, hws, hne⟩ := serC_head x
          have hexp : serC (.arr (.cons x xs')) ++ rest
              = '[' :: (serC x ++ (serCItems xs' ++ ']' :: rest)) := by
            show ('[' :: (serC x ++ serCItems xs' ++ [']'])) ++ rest = _
            simp
          show parseVal (fuel + 1) (serC (.arr (.cons x xs')) ++ rest)
            = .ok (.arr (.cons x xs'), rest)
          rw [hexp, parseVal, skipWs_cons_not '[' _ (by decide)]
          simp only [show ¬ ('[' = 'n') by decide, show ¬ ('[' = 't') by decide,
            show ¬ ('[' = 'f') by decide, show ¬ ('[' = '"') by decide, if_neg, if_false,
            if_pos, if_true]
          rw [hct, List.cons_append, skipWs_cons_not c _ hws]
          simp only [hne, if_false]
          rw [← List.cons_append, ← hct,
            ih1 x (serCItems xs' ++ ']' :: rest) hx (numSafe_serCItems xs' rest)]
          simp only [ih2 xs' rest hxs]
      | obj kvs =>
        cases kvs with
        | nil => rfl
        | cons k v' ms =>
          have hsz : jsize (Json.obj (JsonObj.cons k v' ms))
              = 1 + (jsize v' + 1 + jsizeObj ms) := by
            simp [jsize, jsizeObj]
          have hv : jsize v' ≤ fuel := by
            have := jsizeObj_one_le ms
            omega
          have hms : jsizeObj ms ≤ fuel := by
            have := jsize_one_le v'
            omega
          have hexp : serC (.obj (.cons k v' ms)) ++ rest
              = '\x7b' :: ('"' :: (escList k.data
                ++ '"' :: ':' :: (serC v' ++ (serCMembers ms ++ '\x7d' :: rest)))) := by
            show ('\x7b' :: (quoteChars k.data ++ ':' :: serC v' ++ serCMembers ms
              ++ ['\x7d'])) ++ rest = _
            simp [quoteChars]
          show parseVal (fuel + 1) (serC (.obj (.cons k v' ms)) ++ rest)
            = .ok (.obj (.cons k v' ms), rest)
          rw [hexp, parseVal, skipWs_cons_not '\x7b' _ (by decide)]
          simp only [show ¬ ('\x7b' = 'n') by decide, show ¬ ('\x7b' = 't') by decide,
            show ¬ ('\x7b' = 'f') by decide, show ¬ ('\x7b' = '"') by decide,
            show ¬ ('\x7b' = '[') by decide, if_neg, if_false, if_pos, if_true]
          rw [skipWs_cons_not '"' _ (by decide)]
          simp only [show ¬ ('"' = '\x7d') by decide, if_neg, if_false, if_pos, if_true]
          have hklen : k.data.length
              < (escList k.data ++ '"' :: ':' :: (serC v' ++ (serCMembers ms
                  ++ '\x7d' :: rest))).length + 1 := by
            have := escList_length k.data
            rw [List.length_append]
            omega
          rw [parseStrAux_escList k.data _ hklen
            (':' :: (serC v' ++ (serCMembers ms ++ '\x7d' :: rest)))]
          simp only [show ∀ l, skipWs (':' :: l) = ':' :: l from
              fun l => skipWs_cons_not ':' l (by decide),
            eq_self_iff_true, if_true,
            ih1 v' (serCMembers ms ++ '\x7d' :: rest) hv (numSafe_serCMembers ms rest),
            ih3 ms rest hms]
    · intro xs rest hs
      cases xs with
      | nil => rfl
      | cons x xs' =>
        have hsz : jsizeArr (JsonArr.cons x xs') = jsize x + 1 + jsizeArr xs' := by
          simp [jsizeArr]
        have hx : jsize x ≤ fuel := by
          have := jsizeArr_one_le xs'
          omega
        have hxs : jsizeArr xs' ≤ fuel := by
          have := jsize_one_le x
          omega
        have hexp : serCItems (.cons x xs') ++ ']' :: rest
            = ',' :: (serC x ++ (serCItems xs' ++ ']' :: rest)) := by
          show (',' :: (serC x ++ serCItems xs')) ++ ']' :: rest = _
          simp
        rw [hexp, parseArrRest, skipWs_cons_not ',' _ (by decide)]
        simp only [show ¬ (',' = ']') by decide, eq_self_iff_true, if_neg, if_false,
          if_pos, if_true]
        rw [ih1 x (serCItems xs' ++ ']' :: rest) hx (numSafe_serCItems xs' rest)]
        simp only [ih2 xs' rest hxs]
    · intro kvs rest hs
      cases kvs with
      | nil => rfl
      | cons k v' ms =>
        have hsz : jsizeObj (JsonObj.cons k v' ms) = jsize v' + 1 + jsizeObj ms := by
          simp [jsizeObj]
        have hv : jsize v' ≤ fuel := by
          have := jsizeObj_one_le ms
          omega
        have hms : jsizeObj ms ≤ fuel := by
          have := jsize_one_le v'
          omega
        have hexp : serCMembers (.cons k v' ms) ++ '\x7d' :: rest
            = ',' :: ('"' :: (escList k.data
              ++ '"' :: ':' :: (serC v' ++ (serCMembers ms ++ '\x7d' :: rest)))) := by
          show (',' :: (quoteChars k.data ++ ':' :: serC v' ++ serCMembers ms))
              ++ '\x7d' :: rest = _
          simp [quoteChars]
        rw [hexp, parseObjRest, skipWs_cons_not ',' _ (by decide)]
        simp only [show ¬ (',' = '\x7d') by decide, eq_self_iff_true, if_neg, if_false,
          if_pos, if_true]
        rw [skipWs_cons_not '"' _ (by decide)]
        simp only [eq_self_iff_true, if_true]
        have hklen : k.data.length
            < (escList k.data ++ '"' :: ':' :: (serC v' ++ (serCMembers ms
                ++ '\x7d' :: rest))).length + 1 := by
          have := escList_length k.data
          rw [List.length_append]
          omega
        rw [parseStrAux_escList k.data _ hklen
          (':' :: (serC v' ++ (serCMembers ms ++ '\x7d' :: rest)))]
        simp only [show ∀ l, skipWs (':' :: l) = ':' :: l from
            fun l => skipWs_cons_not ':' l (by decide),
          eq_self_iff_true, if_true,
          ih1 v' (serCMembers ms ++ '\x7d' :: rest) hv (numSafe_serCMembers ms rest),
          ih3 ms rest hms]

end Rappit

namespace Rappit

theorem intChars_ne_nil (n : Int) : intChars n ≠ [] := by
  obtain ⟨c, t, hct, -⟩ := intChars_head n
  rw [hct]
  simp

mutual
theorem jsize_le_serC : ∀ v : Json, jsize v ≤ 2 * (serC v).length
  | .null => by simp [jsize, serC]
  | .bool b => by cases b <;> simp [jsize, serC]
  | .num n => by
    have h := intChars_ne_nil n
    have : 1 ≤ (intChars n).length := by
      cases he : intChars n with
      | nil => exact absurd he h
      | cons c t => simp
    simp only [jsize, serC]
    omega
  | .str s => by
    simp only [jsize, serC, quoteChars, List.length_cons, List.length_append,
      List.length_singleton]
    omega
  | .arr xs => by
    have h := jsizeArr_le_serCItems xs
    cases xs with
    | nil => simp [jsize, jsizeArr, serC]
    | cons x t =>
      have h1 := jsize_le_serC x
      have h2 := jsizeArr_le_serCItems t
      simp only [jsize, jsizeArr, serC, List.length_cons, List.length_append,
        List.length_singleton]
      omega
  | .obj kvs => by
    cases kvs with
    | nil => simp [jsize, jsizeObj, serC]
    | cons k v t =>
      have h1 := jsize_le_serC v
      have h2 := jsizeObj_le_serCMembers t
      simp only [jsize, jsizeObj, serC, List.length_cons, List.length_append,
        List.length_singleton]
      omega
theorem jsizeArr_le_serCItems : ∀ xs : JsonArr, jsizeArr xs ≤ 2 * (serCItems xs).length + 2
  | .nil => by simp [jsizeArr, serCItems]
  | .cons x t => by
    have h1 := jsize_le_serC x
    have h2 := jsizeArr_le_serCItems t
    simp only [jsizeArr, serCItems, List.length_cons, List.length_append]
    omega
theorem jsizeObj_le_serCMembers : ∀ kvs : JsonObj, jsizeObj kvs ≤ 2 * (serCMembers kvs).length + 2
  | .nil => by simp [jsizeObj, serCMembers]
  | .cons k v t => by
    have h1 := jsize_le_serC v
    have h2 := jsizeObj_le_serCMembers t
    simp only [jsizeObj, serCMembers, List.length_cons, List.length_append]
    omega
end

theorem jsonLoads_dumpsCompact (v : Json) : jsonLoads (dumpsCompact v) = .ok v := by
  have hb : jsize v ≤ jsonFuel (serC v) := by
    have := jsize_le_serC v
    rw [jsonFuel]
    omega
  have hround := (roundC (jsonFuel (serC v))).1 v [] hb rfl
  rw [List.append_nil] at hround
  have hd : (dumpsCompact v).data = serC v := rfl
  simp only [jsonLoads, hd, hround]
  rfl

end Rappit

namespace Rappit

theorem serP_head_class (v : Json) (lvl : Nat) :
    ∃ c t, serP v lvl = c :: t ∧ jsonWs c = false ∧ ¬ c = ']' := by
  cases v with
  | null => exact ⟨'n', _, rfl, rfl, by decide⟩
  | bool b =>
    cases b with
    | false => exact ⟨'f', _, rfl, rfl, by decide⟩
    | true => exact ⟨'t', _, rfl, rfl, by decide⟩
  | num n =>
    obtain ⟨c, t, hct, hc⟩ := intChars_head n
    refine ⟨c, t, hct, ?_, ?_⟩
    · rcases hc with h | ⟨k, hk, h⟩
      · rw [h]; rfl
      · rw [h]
        have hall : ∀ m, m < 10 → jsonWs (digitChar m) = false := by decide
        exact hall k hk
    · rcases hc with h | ⟨k, hk, h⟩
      · rw [h]; decide
      · rw [h]
        have hall : ∀ m, m < 10 → ¬ digitChar m = ']' := by decide
        exact hall k hk
  | str s => exact ⟨'"', _, rfl, rfl, by decide⟩
  | arr xs =>
    cases xs with
    | nil => exact ⟨'[', _, rfl, rfl, by decide⟩
    | cons x t => exact ⟨'[', _, rfl, rfl, by decide⟩
  | obj kvs =>
    cases kvs with
    | nil => exact ⟨'\x7b', _, rfl, rfl, by decide⟩
    | cons k v t => exact ⟨'\x7b', _, rfl, rfl, by decide⟩

theorem numSafe_serPItems (xs : JsonArr) (ilvl : Nat) (l : List Char)
    (h : numSafe l = true) : numSafe (serPItems xs ilvl ++ l) = true := by
  cases xs with
  | nil => exact h
  | cons x t => rfl

theorem numSafe_serPMembers (ms : JsonObj) (ilvl : Nat) (l : List Char)
    (h : numSafe l = true) : numSafe (serPMembers ms ilvl ++ l) = true := by
  cases ms with
  | nil => exact h
  | cons k v t => rfl

theorem parseVal_ws_run (fuel : Nat) (W l : List Char) (hW : ∀ c ∈ W, jsonWs c = true) :
    parseVal fuel (W ++ l) = parseVal fuel l := by
  rw [← parseVal_skipWs fuel (W ++ l), skipWs_ws_append W l hW, parseVal_skipWs]

end Rappit


namespace Rappit

theorem nl_indK_ws (lvl : Nat) : ∀ c ∈ ('\n' :: indK lvl), jsonWs c = true := by
  intro c hc
  rcases List.mem_cons.mp hc with h | h
  · rw [h]; rfl
  · exact indK_ws lvl c h

theorem numSafe_ws_append (W l : List Char) (hW : ∀ c ∈ W, jsonWs c = true)
    (hl : numSafe l = true) : numSafe (W ++ l) = true := by
  cases W with
  | nil => simpa using hl
  | cons w t =>
    have hw : jsonWs w = true := hW w (by simp)
    rw [jsonWs] at hw
    simp only [Bool.or_eq_true, decide_eq_true_eq] at hw
    rcases hw with ((h | h) | h) | h <;> subst h <;> rfl

theorem roundP : ∀ fuel : Nat,
    (∀ (v : Json) (lvl : Nat) (rest : List Char), jsize v ≤ fuel → numSafe rest = true →
      parseVal fuel (serP v lvl ++ rest) = .ok (v, rest)) ∧
    (∀ (xs : JsonArr) (ilvl : Nat) (W rest : List Char), jsizeArr xs ≤ fuel →
      (∀ c ∈ W, jsonWs c = true) →
      parseArrRest fuel (serPItems xs ilvl ++ (W ++ ']' :: rest)) = .ok (xs, rest)) ∧
    (∀ (kvs : JsonObj) (ilvl : Nat) (W rest : List Char), jsizeObj kvs ≤ fuel →
      (∀ c ∈ W, jsonWs c = true) →
      parseObjRest fuel (serPMembers kvs ilvl ++ (W ++ '\x7d' :: rest)) = .ok (kvs, rest)) := by
  intro fuel
  induction fuel with
  | zero =>
    refine ⟨fun v lvl rest hs _ => ?_, fun xs ilvl W rest hs _ => ?_,
      fun kvs ilvl W rest hs _ => ?_⟩
    · have := jsize_one_le v; omega
    · have := jsizeArr_one_le xs; omega
    · have := jsizeObj_one_le kvs; omega
  | succ fuel ih =>
    obtain ⟨ih1, ih2, ih3⟩ := ih
    refine ⟨?_, ?_, ?_⟩
    · intro v lvl rest hs hsafe
      cases v with
      | null => rfl
      | bool b => cases b with | false => rfl | true => rfl
      | num n =>
        obtain ⟨c, t, hct, hc⟩ := intChars_head n
        have hfacts : jsonWs c = false ∧ ¬ c = 'n' ∧ ¬ c = 't' ∧ ¬ c = 'f' ∧ ¬ c = '"'
            ∧ ¬ c = '[' ∧ ¬ c = '\x7b' ∧ (c = '-' || isDigitC c) = true := by
          rcases hc with h | ⟨k, hk, h⟩
          · subst h
            exact ⟨rfl, by decide, by decide, by decide, by decide, by decide, by decide, rfl⟩
          · subst h
            have hall : ∀ m, m < 10 → jsonWs (digitChar m) = false ∧ ¬ digitChar m = 'n'
                ∧ ¬ digitChar m = 't' ∧ ¬ digitChar m = 'f' ∧ ¬ digitChar m = '"'
                ∧ ¬ digitChar m = '[' ∧ ¬ digitChar m = '\x7b'
                ∧ (digitChar m = '-' || isDigitC (digitChar m)) = true := by decide
            exact hall k hk
        obtain ⟨hws, hn2, ht2, hf2, hq2, hbr2, hob2, hnum2⟩ := hfacts
        show parseVal (fuel + 1) (intChars n ++ rest) = .ok (.num n, rest)
        rw [hct, List.cons_append, parseVal, skipWs_cons_not c _ hws]
        simp only [if_neg hn2, if_neg ht2, if_neg hf2, if_neg hq2, if_neg hbr2,
          if_neg hob2, hnum2, if_true]
        rw [← List.cons_append, ← hct]
        exact parseNum_intChars n rest hsafe
      | str s =>
        have hexp : serP (.str s) lvl ++ rest = '"' :: (escList s.data ++ '"' :: rest) := by
          show ('"' :: escList s.data ++ ['"']) ++ rest = _
          simp
        show parseVal (fuel + 1) (serP (.str s) lvl ++ rest) = .ok (.str s, rest)
        rw [hexp, parseVal, skipWs_cons_not '"' _ (by decide)]
        have hlen : s.data.length < (escList s.data ++ '"' :: rest).length + 1 := by
          have := escList_length s.data
          rw [List.length_append]
          omega
        simp only [show ¬ ('"' = 'n') by decide, show ¬ ('"' = 't') by decide,
          show ¬ ('"' = 'f') by decide, if_neg, if_false, if_pos, if_true]
        rw [parseStrAux_escList s.data _ hlen rest]
      | arr xs =>
        cases xs with
        | nil => rfl
        | cons x xs' =>
          have hsz : jsize (Json.arr (JsonArr.cons x xs'))
              = 1 + (jsize x + 1 + jsizeArr xs') := by
            simp [jsize, jsizeArr]
          have hx : jsize x ≤ fuel := by
            have := jsizeArr_one_le xs'
            omega
          have hxs : jsizeArr xs' ≤ fuel := by
            have := jsize_one_le x
            omega
          have hexp : serP (.arr (.cons x xs')) lvl ++ rest
              = '[' :: '\n' :: (indK (lvl + 1) ++ (serP x (lvl + 1)
                ++ (serPItems xs' (lvl + 1) ++ (('\n' :: indK lvl) ++ ']' :: rest)))) := by
            show ('[' :: '\n' :: (indK (lvl + 1) ++ serP x (lvl + 1) ++ serPItems xs' (lvl + 1)
              ++ '\n' :: (indK lvl ++ [']']))) ++ rest = _
            simp
          show parseVal (fuel + 1) (serP (.arr (.cons x xs')) lvl ++ rest)
            = .ok (.arr (.cons x xs'), rest)
          rw [hexp, parseVal, skipWs_cons_not '[' _ (by decide)]
          simp only [show ¬ ('[' = 'n') by decide, show ¬ ('[' = 't') by decide,
            show ¬ ('[' = 'f') by decide, show ¬ ('[' = '"') by decide, if_neg, if_false,
            if_pos, if_true]
          rw [skipWs_cons_ws '\n' _ (by decide), skipWs_ws_append _ _ (indK_ws (lvl + 1))]
          obtain ⟨c, t, hct, hws, hne⟩ := serP_head_class x (lvl + 1)
          rw [hct, List.cons_append, skipWs_cons_not c _ hws]
          simp only [hne, if_false]
          rw [← List.cons_append, ← hct,
            ih1 x (lvl + 1) (serPItems xs' (lvl + 1) ++ (('\n' :: indK lvl) ++ ']' :: rest)) hx
              (numSafe_serPItems xs' (lvl + 1) _ rfl)]
          simp only [ih2 xs' (lvl + 1) ('\n' :: indK lvl) rest hxs (nl_indK_ws lvl)]
      | obj kvs =>
        cases kvs with
        | nil => rfl
        | cons k v' ms =>
          have hsz : jsize (Json.obj (JsonObj.cons k v' ms))
              = 1 + (jsize v' + 1 + jsizeObj ms) := by
            simp [jsize, jsizeObj]
          have hv : jsize v' ≤ fuel := by
            have := jsizeObj_one_le ms
            omega
          have hms : jsizeObj ms ≤ fuel := by
            have := jsize_one_le v'
            omega
          have hexp : serP (.obj (.cons k v' ms)) lvl ++ rest
              = '\x7b' :: '\n' :: (indK (lvl + 1) ++ ('"' :: (escList k.data
                ++ '"' :: ':' :: ' ' :: (serP v' (lvl + 1)
                  ++ (serPMembers ms (lvl + 1)
                    ++ (('\n' :: indK lvl) ++ '\x7d' :: rest)))))) := by
            show ('\x7b' :: '\n' :: (indK (lvl + 1) ++ quoteChars k.data ++ ':' :: ' '
              :: serP v' (lvl + 1) ++ serPMembers ms (lvl + 1)
              ++ '\n' :: (indK lvl ++ ['\x7d']))) ++ rest = _
            simp [quoteChars]
          show parseVal (fuel + 1) (serP (.obj (.cons k v' ms)) lvl ++ rest)
            = .ok (.obj (.cons k v' ms), rest)
          rw [hexp, parseVal, skipWs_cons_not '\x7b' _ (by decide)]
          simp only [show ¬ ('\x7b' = 'n') by decide, show ¬ ('\x7b' = 't') by decide,
            show ¬ ('\x7b' = 'f') by decide, show ¬ ('\x7b' = '"') by decide,
            show ¬ ('\x7b' = '[') by decide, if_neg, if_false, if_pos, if_true]
          rw [skipWs_cons_ws '\n' _ (by decide), skipWs_ws_append _ _ (indK_ws (lvl + 1)),
            skipWs_cons_not '"' _ (by decide)]
          simp only [show ¬ ('"' = '\x7d') by decide, eq_self_iff_true, if_neg, if_false,
            if_pos, if_true]
          have hklen : k.data.length
              < (escList k.data ++ '"' :: ':' :: ' ' :: (serP v' (lvl + 1)
                  ++ (serPMembers ms (lvl + 1)
                    ++ (('\n' :: indK lvl) ++ '\x7d' :: rest)))).length + 1 := by
            have := escList_length k.data
            rw [List.length_append]
            omega
          rw [parseStrAux_escList k.data _ hklen
            (':' :: ' ' :: (serP v' (lvl + 1) ++ (serPMembers ms (lvl + 1)
              ++ (('\n' :: indK lvl) ++ '\x7d' :: rest))))]
          simp only [show ∀ l, skipWs (':' :: l) = ':' :: l from
              fun l => skipWs_cons_not ':' l (by decide),
            eq_self_iff_true, if_true]
          rw [show ∀ l, parseVal fuel (' ' :: l) = parseVal fuel l from
              fun l => parseVal_ws_run fuel [' '] l (by decide)]
          rw [ih1 v' (lvl + 1)
            (serPMembers ms (lvl + 1) ++ (('\n' :: indK lvl) ++ '\x7d' :: rest)) hv
            (numSafe_serPMembers ms (lvl + 1) _ rfl)]
          simp only [ih3 ms (lvl + 1) ('\n' :: indK lvl) rest hms (nl_indK_ws lvl)]
    · intro xs ilvl W rest hs hW
      cases xs with
      | nil =>
        show parseArrRest (fuel + 1) (serPItems JsonArr.nil ilvl ++ (W ++ ']' :: rest))
          = .ok (.nil, rest)
        rw [show serPItems JsonArr.nil ilvl = [] from rfl, List.nil_append, parseArrRest,
          skipWs_ws_append W _ hW, skipWs_cons_not ']' _ (by decide)]
        simp only [eq_self_iff_true, if_true]
      | cons x xs' =>
        have hsz : jsizeArr (JsonArr.cons x xs') = jsize x + 1 + jsizeArr xs' := by
          simp [jsizeArr]
        have hx : jsize x ≤ fuel := by
          have := jsizeArr_one_le xs'
          omega
        have hxs : jsizeArr xs' ≤ fuel := by
          have := jsize_one_le x
          omega
        have hexp : serPItems (.cons x xs') ilvl ++ (W ++ ']' :: rest)
            = ',' :: '\n' :: (indK ilvl ++ (serP x ilvl
              ++ (serPItems xs' ilvl ++ (W ++ ']' :: rest)))) := by
          show (',' :: '\n' :: (indK ilvl ++ serP x ilvl ++ serPItems xs' ilvl))
            ++ (W ++ ']' :: rest) = _
          simp
        rw [hexp, parseArrRest, skipWs_cons_not ',' _ (by decide)]
        simp only [show ¬ (',' = ']') by decide, eq_self_iff_true, if_neg, if_false,
          if_pos, if_true]
        rw [show parseVal fuel ('\n' :: (indK ilvl ++ (serP x ilvl
            ++ (serPItems xs' ilvl ++ (W ++ ']' :: rest)))))
            = parseVal fuel (serP x ilvl ++ (serPItems xs' ilvl ++ (W ++ ']' :: rest))) from
          parseVal_ws_run fuel ('\n' :: indK ilvl) _ (nl_indK_ws ilvl)]
        rw [ih1 x ilvl (serPItems xs' ilvl ++ (W ++ ']' :: rest)) hx
          (numSafe_serPItems xs' ilvl _ (numSafe_ws_append W _ hW rfl))]
        simp only [ih2 xs' ilvl W rest hxs hW]
    · intro kvs ilvl W rest hs hW
      cases kvs with
      | nil =>
        show parseObjRest (fuel + 1) (serPMembers JsonObj.nil ilvl ++ (W ++ '\x7d' :: rest))
          = .ok (.nil, rest)
        rw [show serPMembers JsonObj.nil ilvl = [] from rfl, List.nil_append, parseObjRest,
          skipWs_ws_append W _ hW, skipWs_cons_not '\x7d' _ (by decide)]
        simp only [eq_self_iff_true, if_true]
      | cons k v' ms =>
        have hsz : jsizeObj (JsonObj.cons k v' ms) = jsize v' + 1 + jsizeObj ms := by
          simp [jsizeObj]
        have hv : jsize v' ≤ fuel := by
          have := jsizeObj_one_le ms
          omega
        have hms : jsizeObj ms ≤ fuel := by
          have := jsize_one_le v'
          omega
        have hexp : serPMembers (.cons k v' ms) ilvl ++ (W ++ '\x7d' :: rest)
            = ',' :: '\n' :: (indK ilvl ++ ('"' :: (escList k.data
              ++ '"' :: ':' :: ' ' :: (serP v' ilvl
                ++ (serPMembers ms ilvl ++ (W ++ '\x7d' :: rest)))))) := by
          show (',' :: '\n' :: (indK ilvl ++ quoteChars k.data ++ ':' :: ' ' :: serP v' ilvl
            ++ serPMembers ms ilvl)) ++ (W ++ '\x7d' :: rest) = _
          simp [quoteChars]
        rw [hexp, parseObjRest, skipWs_cons_not ',' _ (by decide)]
        simp only [show ¬ (',' = '\x7d') by decide, eq_self_iff_true, if_neg, if_false,
          if_pos, if_true]
        rw [skipWs_cons_ws '\n' _ (by decide), skipWs_ws_append _ _ (indK_ws ilvl),
          skipWs_cons_not '"' _ (by decide)]
        simp only [eq_self_iff_true, if_true]
        have hklen : k.data.length
            < (escList k.data ++ '"' :: ':' :: ' ' :: (serP v' ilvl
                ++ (serPMembers ms ilvl ++ (W ++ '\x7d' :: rest)))).length + 1 := by
          have := escList_length k.data
          rw [List.length_append]
          omega
        rw [parseStrAux_escList k.data _ hklen
          (':' :: ' ' :: (serP v' ilvl ++ (serPMembers ms ilvl ++ (W ++ '\x7d' :: rest))))]
        simp only [show ∀ l, skipWs (':' :: l) = ':' :: l from
            fun l => skipWs_cons_not ':' l (by decide),
          eq_self_iff_true, if_true]
        rw [show ∀ l, parseVal fuel (' ' :: l) = parseVal fuel l from
            fun l => parseVal_ws_run fuel [' '] l (by decide)]
        rw [ih1 v' ilvl (serPMembers ms ilvl ++ (W ++ '\x7d' :: rest)) hv
          (numSafe_serPMembers ms ilvl _ (numSafe_ws_append W _ hW rfl))]
        simp only [ih3 ms ilvl W rest hms hW]

end Rappit

namespace Rappit

mutual
theorem jsize_le_serP : ∀ (v : Json) (lvl : Nat), jsize v ≤ 2 * (serP v lvl).length
  | .null, _ => by simp [jsize, serP]
  | .bool b, _ => by cases b <;> simp [jsize, serP]
  | .num n, _ => by
    have h := intChars_ne_nil n
    have : 1 ≤ (intChars n).length := by
      cases he : intChars n with
      | nil => exact absurd he h
      | cons c t => simp
    simp only [jsize, serP]
    omega
  | .str s, _ => by
    simp only [jsize, serP, quoteChars, List.length_cons, List.length_append,
      List.length_singleton]
    omega
  | .arr xs, lvl => by
    cases xs with
    | nil => simp [jsize, jsizeArr, serP]
    | cons x t =>
      have h1 := jsize_le_serP x (lvl + 1)
      have h2 := jsizeArr_le_serPItems t (lvl + 1)
      simp only [jsize, jsizeArr, serP, List.length_cons, List.length_append,
        List.length_singleton]
      omega
  | .obj kvs, lvl => by
    cases kvs with
    | nil => simp [jsize, jsizeObj, serP]
    | cons k v t =>
      have h1 := jsize_le_serP v (lvl + 1)
      have h2 := jsizeObj_le_serPMembers t (lvl + 1)
      simp only [jsize, jsizeObj, serP, quoteChars, List.length_cons, List.length_append,
        List.length_singleton]
      omega
theorem jsizeArr_le_serPItems : ∀ (xs : JsonArr) (ilvl : Nat),
    jsizeArr xs ≤ 2 * (serPItems xs ilvl).length + 2
  | .nil, _ => by simp [jsizeArr, serPItems]
  | .cons x t, ilvl => by
    have h1 := jsize_le_serP x ilvl
    have h2 := jsizeArr_le_serPItems t ilvl
    simp only [jsizeArr, serPItems, List.length_cons, List.length_append]
    omega
theorem jsizeObj_le_serPMembers : ∀ (kvs : JsonObj) (ilvl : Nat),
    jsizeObj kvs ≤ 2 * (serPMembers kvs ilvl).length + 2
  | .nil, _ => by simp [jsizeObj, serPMembers]
  | .cons k v t, ilvl => by
    have h1 := jsize_le_serP v ilvl
    have h2 := jsizeObj_le_serPMembers t ilvl
    simp only [jsizeObj, serPMembers, quoteChars, List.length_cons, List.length_append]
    omega
end

theorem jsonLoads_dumpsPretty (v : Json) : jsonLoads (dumpsPretty v) = .ok v := by
  have hb : jsize v ≤ jsonFuel (serP v 0) := by
    have := jsize_le_serP v 0
    rw [jsonFuel]
    omega
  have hround := (roundP (jsonFuel (serP v 0))).1 v 0 [] hb rfl
  rw [List.append_nil] at hround
  have hd : (dumpsPretty v).data = serP v 0 := rfl
  simp only [jsonLoads, hd, hround]
  rfl

end Rappit

namespace Rappit

/-- Claim C7 (amended): for every input that is valid JSON AND that the
content detector classifies as JSON both as received (the minify path) and
after `strip()` (the format path), parsing the minified output and parsing
the formatted output agree: both equal the parse of the input. Minify
returns the compact dump and format the 2-space-indented dump of the same
value. (The restriction to detector-accepted inputs is necessary: see the
counterexample, where a valid JSON string literal is routed to the HTML
whitespace-collapsing branch of `minify_content` and mangled.) -/
theorem C7_theorem (minidomFmt : String → Option String) (x : String) (v : Json)
    (h1 : jsonLoads x = .ok v) (h2 : is_json x = true)
    (h3 : jsonLoads (pyStrip x) = .ok v) (h4 : is_json (pyStrip x) = true) :
    jsonLoads (minify_content x none)
      = jsonLoads (format_content minidomFmt x none) ∧
    jsonLoads (minify_content x none) = .ok v ∧
    minify_content x none = dumpsCompact v ∧
    format_content minidomFmt x none = dumpsPretty v := by
  have hne : ¬ (x = "") := by
    intro h
    rw [h, show jsonLoads "" = Except.error "Expecting value" from rfl] at h1
    exact Except.noConfusion h1
  have hps : ¬ (pyStrip x = "") := by
    intro h
    rw [h, show jsonLoads "" = Except.error "Expecting value" from rfl] at h3
    exact Except.noConfusion h3
  have hm : minify_content x none = dumpsCompact v := by
    simp only [minify_content, if_neg hne, h2, Bool.true_or, if_true, h1]
  have hf : format_content minidomFmt x none = dumpsPretty v := by
    simp only [format_content, if_neg (not_or.mpr ⟨hne, hps⟩), h4, if_true,
      format_json, h3]
  refine ⟨?_, ?_, hm, hf⟩
  · rw [hm, hf, jsonLoads_dumpsCompact, jsonLoads_dumpsPretty]
  · rw [hm, jsonLoads_dumpsCompact]

/-- Claim C7, witness: on the concrete input ` \x7b"a":1\x7d ` (a valid JSON
object with surrounding whitespace) minify and format both succeed and both
parse back to the same value. -/
theorem C7_witness :
    jsonLoads " \x7b\"a\":1\x7d " = .ok (Json.obj (.cons "a" (.num 1) .nil)) ∧
    is_json " \x7b\"a\":1\x7d " = true ∧
    jsonLoads (minify_content " \x7b\"a\":1\x7d " none)
      = jsonLoads (format_content (fun _ => none) " \x7b\"a\":1\x7d " none) :=
  ⟨rfl, rfl,
    (C7_theorem (fun _ => none) " \x7b\"a\":1\x7d " (Json.obj (.cons "a" (.num 1) .nil))
      rfl rfl rfl rfl).1⟩

end Rappit
